import Mathlib

/-!
# Distance matching plugin: curve time lookup and stop location prediction

A shallow embedding of the two library functions of
`DistanceMatchingPluginBPLibrary.cpp`:

* `GetCurveTime` (the spec's `findTime`): inverse sampling of a float curve;
* `PredictStopLocation` (the spec's `predictStop`): the braking simulation.

The functions are embedded twice.

* In the first embedding floats are the elements of an arbitrary linearly
  ordered field `K` (exact arithmetic: the rationals and the reals are
  instances), so a theorem about it is a statement about the code run without
  rounding.
* In the second embedding (namespace `Binary32`) floats are IEEE 754 binary32
  numbers and every operation rounds.  It is evaluated at concrete inputs, to
  show where a property of the exact embedding is lost in single precision.

The C++ `int` indices and counters are embedded as `Int`; reading a sample
outside `0 .. NumSamples - 1` is a fault and is embedded as `none`.
-/

namespace DistanceMatching

/-! ## Data model -/

/-- One key of a float curve: the time of the key and the value of the curve there. -/
structure Sample (K : Type) where
  Time : K
  Value : K

/-- The samples that the engine's `FAnimCurveBufferAccess` gives access to,
indexed `0 .. N-1` (the spec's `SampledCurve`). -/
abbrev SampledCurve (K : Type) := List (Sample K)

section Curve

variable {K : Type} [LinearOrderedField K]

/-- Engine accessor `FAnimCurveBufferAccess::GetNumSamples`, cast to `int`. -/
def GetNumSamples (CurveBuffer : SampledCurve K) : Int :=
  (CurveBuffer.length : Int)

/-- Engine accessor `FAnimCurveBufferAccess::GetValue`: the value of sample
`SampleIndex`; an index outside the buffer is a fault (`none`). -/
def GetValue (CurveBuffer : SampledCurve K) (SampleIndex : Int) : Option K :=
  if 0 ≤ SampleIndex then (CurveBuffer[SampleIndex.toNat]?).map Sample.Value else none

/-- Engine accessor `FAnimCurveBufferAccess::GetTime`: the time of sample
`SampleIndex`; an index outside the buffer is a fault (`none`). -/
def GetTime (CurveBuffer : SampledCurve K) (SampleIndex : Int) : Option K :=
  if 0 ≤ SampleIndex then (CurveBuffer[SampleIndex.toNat]?).map Sample.Time else none

/-- Engine constant `SMALL_NUMBER` (`1.e-8f`), the default tolerance of
`FMath::IsNearlyZero` and of `FVector::GetSafeNormal`. -/
def SMALL_NUMBER : K := 1 / 100000000

/-- Engine helper `FMath::IsNearlyZero(Value)`: `Abs(Value) <= SMALL_NUMBER`. -/
def IsNearlyZero (Value : K) : Bool :=
  decide (|Value| ≤ SMALL_NUMBER)

/-- Engine helper `FMath::Lerp(A, B, Alpha)`: `A + Alpha * (B - A)`, computed
without rounding (`Binary32.Lerp` is the rounded one). -/
def Lerp (A B Alpha : K) : K :=
  A + Alpha * (B - A)

/-- The `while (Count > 0)` loop of `GetCurveTime` (lines 52-66), started from
the loop variables `NextIndex` and `Count`; it returns the final `NextIndex`.
The recursion is on the loop itself: `Count` strictly decreases while positive. -/
def binarySearch (CurveBuffer : SampledCurve K) (CurveValue : K)
    (NextIndex Count : Int) : Option Int :=
  if Count > 0 then
    let Step := Count / 2
    let Middle := NextIndex + Step
    match GetValue CurveBuffer Middle with
    | none => none
    | some MiddleValue =>
      if CurveValue > MiddleValue then
        binarySearch CurveBuffer CurveValue (Middle + 1) (Count - (Step + 1))
      else
        binarySearch CurveBuffer CurveValue NextIndex Step
  else
    some NextIndex
termination_by Count.toNat
decreasing_by
  all_goals simp_wf
  all_goals omega

/-- `UDistanceMatchingPluginBPLibrary::GetCurveTime` from the point where the
curve buffer exists (lines 30-77).  Lines 17-28 are the engine adapter: they
return `0.0f` for a null animation sequence and otherwise build `CurveBuffer`
from the named curve.  The result is `none` exactly when a sample outside the
buffer would be read. -/
def GetCurveTime (CurveBuffer : SampledCurve K) (CurveValue : K) : Option K :=
  let NumSamples : Int := GetNumSamples CurveBuffer
  let LastIndex : Int := NumSamples - 1
  if NumSamples < 2 then
    some 0
  else
    match GetValue CurveBuffer 0 with
    | none => none
    | some FirstValue =>
      if CurveValue ≤ FirstValue then
        GetTime CurveBuffer 0
      else
        match GetValue CurveBuffer LastIndex with
        | none => none
        | some LastValue =>
          if CurveValue ≥ LastValue then
            GetTime CurveBuffer LastIndex
          else
            match binarySearch CurveBuffer CurveValue 1 (LastIndex - 1) with
            | none => none
            | some NextIndex =>
              let PrevIndex := NextIndex - 1
              match GetValue CurveBuffer PrevIndex, GetValue CurveBuffer NextIndex,
                  GetTime CurveBuffer PrevIndex, GetTime CurveBuffer NextIndex with
              | some PrevCurveValue, some NextCurveValue, some PrevCurveTime, some NextCurveTime =>
                let Diff := NextCurveValue - PrevCurveValue
                let Alpha := if !IsNearlyZero Diff then (CurveValue - PrevCurveValue) / Diff else 0
                some (Lerp PrevCurveTime NextCurveTime Alpha)
              | _, _, _, _ => none

/-- The spec's precondition on a curve: its values never decrease along the
sample index. -/
def MonotoneValues (crv : SampledCurve K) : Prop :=
  crv.Pairwise (fun a b => a.Value ≤ b.Value)

/-- A precondition on a curve: its times never decrease along the sample
index (the spec's "sorted by time"). -/
def MonotoneTimes (crv : SampledCurve K) : Prop :=
  crv.Pairwise (fun a b => a.Time ≤ b.Time)

end Curve


/-! ## Vectors -/

/-- The engine's `FVector`: three float components. -/
@[ext]
structure FVector (K : Type) where
  X : K
  Y : K
  Z : K

namespace FVector

variable {K : Type} [LinearOrderedField K]

/-- Engine constant `FVector::ZeroVector`. -/
def ZeroVector : FVector K := ⟨0, 0, 0⟩

/-- Engine operator `FVector + FVector`. -/
instance : Add (FVector K) where
  add A B := ⟨A.X + B.X, A.Y + B.Y, A.Z + B.Z⟩

/-- Engine operator `FVector - FVector`. -/
instance : Sub (FVector K) where
  sub A B := ⟨A.X - B.X, A.Y - B.Y, A.Z - B.Z⟩

/-- Engine operator unary `-FVector`. -/
instance : Neg (FVector K) where
  neg A := ⟨-A.X, -A.Y, -A.Z⟩

/-- Engine operator `FVector * float`. -/
instance : HMul (FVector K) K (FVector K) where
  hMul A Scale := ⟨A.X * Scale, A.Y * Scale, A.Z * Scale⟩

/-- Engine operator `float * FVector`, which the engine defines as `V * Scale`. -/
instance : HMul K (FVector K) (FVector K) where
  hMul Scale A := ⟨A.X * Scale, A.Y * Scale, A.Z * Scale⟩

/-- Engine operator `A | B`: the dot product. -/
def dot (A B : FVector K) : K :=
  A.X * B.X + A.Y * B.Y + A.Z * B.Z

/-- Engine method `FVector::IsZero`: all three components are exactly zero. -/
def IsZero (A : FVector K) : Bool :=
  decide (A.X = 0) && decide (A.Y = 0) && decide (A.Z = 0)

/-- Engine method `FVector::SizeSquared`. -/
def SizeSquared (A : FVector K) : K :=
  A.X * A.X + A.Y * A.Y + A.Z * A.Z

/-- Engine method `FVector::Size`: the square root of the squared size.  The
square root itself is a parameter of the embedding. -/
def Size (sqrt : K → K) (A : FVector K) : K :=
  sqrt (A.X * A.X + A.Y * A.Y + A.Z * A.Z)

/-- Engine helper `FMath::InvSqrt`, in exact arithmetic the inverse of the
square root. -/
def InvSqrt (sqrt : K → K) (F : K) : K :=
  1 / sqrt F

/-- Engine method `FVector::GetSafeNormal` with its default tolerance
`SMALL_NUMBER`: the vector itself when its squared size is exactly one, the zero
vector when the squared size is below the tolerance, the scaled vector
otherwise. -/
def GetSafeNormal (sqrt : K → K) (A : FVector K) : FVector K :=
  let SquareSum := A.X * A.X + A.Y * A.Y + A.Z * A.Z
  if SquareSum = 1 then
    A
  else if SquareSum < SMALL_NUMBER then
    ZeroVector
  else
    let Scale := InvSqrt sqrt SquareSum
    ⟨A.X * Scale, A.Y * Scale, A.Z * Scale⟩

/-- Engine method `FVector::ProjectOnToNormal`: `Normal * (this | Normal)`. -/
def ProjectOnToNormal (A Normal : FVector K) : FVector K :=
  Normal * dot A Normal

end FVector

/-! ## Stop location prediction -/

section Predict

open FVector

variable {K : Type} [LinearOrderedField K] [FloorRing K]

/-- The constant `MIN_TICK_TIME` of `PredictStopLocation` (line 92). -/
def MIN_TICK_TIME : K := 1 / 1000000

/-- The constant `MaxTimeStep` of the braking branch (line 133). -/
def MaxTimeStep : K := 1 / 33

/-- The length `dt` of the next braking sub-step (line 140). -/
def subStepTime (bZeroFriction : Bool) (RemainingTime : K) : K :=
  if RemainingTime > MaxTimeStep ∧ bZeroFriction = false then
    min MaxTimeStep (RemainingTime * (1 / 2))
  else
    RemainingTime

/-- The measure that makes the braking sub-step loop terminate: the number of
66ths of a second that remain, rounded up. -/
def remainingTicks (RemainingTime : K) : Nat :=
  (Int.ceil (RemainingTime * 66)).toNat

/-- The `while (RemainingTime >= MIN_TICK_TIME)` loop of the braking branch
(lines 137-152), started from the loop variables `RemainingTime` and
`LastVelocity`; it returns the final `LastVelocity`.  The recursion is on the
loop itself: without rounding each sub-step consumes at least 1/66 second or
all that remains (`Binary32.brakingLoop` is the rounded loop, which takes a
fuel). -/
def brakingLoop [FloorRing K] (Friction : K) (bZeroFriction : Bool) (RevAccel OldVel : FVector K)
    (RemainingTime : K) (LastVelocity : FVector K) : FVector K :=
  if MIN_TICK_TIME ≤ RemainingTime then
    let dt := subStepTime bZeroFriction RemainingTime
    let NewVelocity := LastVelocity + ((-Friction) * LastVelocity + RevAccel) * dt
    if dot NewVelocity OldVel ≤ 0 then
      ZeroVector
    else
      brakingLoop Friction bZeroFriction RevAccel OldVel (RemainingTime - dt) NewVelocity
  else
    LastVelocity
termination_by remainingTicks RemainingTime
decreasing_by
  simp_wf
  rename_i hTick _
  have hpos : (0 : K) < RemainingTime :=
    lt_of_lt_of_le (by unfold MIN_TICK_TIME; norm_num) hTick
  have hone : 0 < Int.ceil (RemainingTime * 66) := Int.ceil_pos.mpr (by linarith)
  have hstep : Int.ceil ((RemainingTime - subStepTime bZeroFriction RemainingTime) * 66)
      ≤ Int.ceil (RemainingTime * 66) - 1 := by
    unfold subStepTime MaxTimeStep
    split_ifs with hc
    · have := hc.1
      rw [← Int.ceil_sub_one]
      apply Int.ceil_mono
      rcases le_total (1 / 33 : K) (RemainingTime * (1 / 2)) with hm | hm
      · rw [min_eq_left hm]; linarith
      · rw [min_eq_right hm]; linarith
    · rw [sub_self, zero_mul, Int.ceil_zero]
      omega
  unfold remainingTicks
  omega

/-- The braking branch of one simulation iteration (lines 130-159): the new
`LastVelocity` when the acceleration is zero. -/
def brakingStep (sqrt : K → K) (Friction BrakingDeceleration TimeStep : K)
    (bZeroFriction bZeroBraking : Bool) (LastVelocity : FVector K) : FVector K :=
  let OldVel := LastVelocity
  let RevAccel : FVector K :=
    if bZeroBraking then ZeroVector else (-BrakingDeceleration) * GetSafeNormal sqrt LastVelocity
  let LastVelocity := brakingLoop Friction bZeroFriction RevAccel OldVel TimeStep LastVelocity
  let VSizeSq := SizeSquared LastVelocity
  if VSizeSq ≤ 1 ∨ (bZeroBraking = false ∧ VSizeSq ≤ 10 * 10) then
    ZeroVector
  else
    LastVelocity

/-- The acceleration branch of one simulation iteration (lines 163-171): the
new `LastVelocity` when the acceleration is not zero. -/
def accelerationStep (sqrt : K → K) (Acceleration : FVector K) (Friction TimeStep : K)
    (LastVelocity : FVector K) : FVector K :=
  let TotalAcceleration : FVector K := { Acceleration with Z := 0 }
  let AccelDir := GetSafeNormal sqrt TotalAcceleration
  let VelSize := Size sqrt LastVelocity
  let TotalAcceleration := TotalAcceleration + (-(LastVelocity - AccelDir * VelSize)) * Friction
  LastVelocity + TotalAcceleration * TimeStep

/-- The velocity update of one simulation iteration (lines 128-172): the
braking branch when the acceleration is zero, the acceleration branch
otherwise. -/
def stepVelocity (sqrt : K → K) (Acceleration : FVector K)
    (Friction BrakingDeceleration TimeStep : K)
    (bZeroAcceleration bZeroFriction bZeroBraking : Bool) (LastVelocity : FVector K) :
    FVector K :=
  if bZeroAcceleration then
    brakingStep sqrt Friction BrakingDeceleration TimeStep bZeroFriction bZeroBraking
      LastVelocity
  else
    accelerationStep sqrt Acceleration Friction TimeStep LastVelocity

/-- The locals of `PredictStopLocation` at the moment its main loop is left:
the value the function returns, the iteration counter, the working velocity and
the working location. -/
structure LoopExit (K : Type) where
  ReturnValue : Bool
  Iterations : Int
  LastVelocity : FVector K
  LastLocation : FVector K

/-- The `while (Iterations < MaxSimulationIterations)` loop (lines 121-184),
started from the loop variables `Iterations`, `LastVelocity` and
`LastLocation`.  It is left either by the `return true` of line 182 or by the
loop condition failing (`return false`, line 186).  The arithmetic is exact
(`Binary32.simulationLoop` is the rounded loop). -/
def simulationLoop (sqrt : K → K) (Acceleration : FVector K)
    (Friction BrakingDeceleration TimeStep : K) (MaxSimulationIterations : Int)
    (bZeroAcceleration bZeroFriction bZeroBraking : Bool)
    (Iterations : Int) (LastVelocity LastLocation : FVector K) : LoopExit K :=
  if Iterations < MaxSimulationIterations then
    let OldVel := LastVelocity
    let NewVelocity := stepVelocity sqrt Acceleration Friction BrakingDeceleration TimeStep
      bZeroAcceleration bZeroFriction bZeroBraking LastVelocity
    let NewLocation := LastLocation + NewVelocity * TimeStep
    let VSizeSq := SizeSquared NewVelocity
    if VSizeSq ≤ 1 ∨ dot NewVelocity OldVel ≤ 0 then
      ⟨true, Iterations + 1, NewVelocity, NewLocation⟩
    else
      simulationLoop sqrt Acceleration Friction BrakingDeceleration TimeStep
        MaxSimulationIterations bZeroAcceleration bZeroFriction bZeroBraking
        (Iterations + 1) NewVelocity NewLocation
  else
    ⟨false, Iterations, LastVelocity, LastLocation⟩
termination_by (MaxSimulationIterations - Iterations).toNat
decreasing_by
  simp_wf
  omega

/-- The body of `PredictStopLocation` up to its return, keeping the locals:
`none` when one of the three entry checks returns `false` before the loop
(lines 93, 100, 110), otherwise the locals with which the main loop is left. -/
def runSimulation (sqrt : K → K) (CurrentLocation Velocity Acceleration : FVector K)
    (Friction BrakingDeceleration TimeStep : K) (MaxSimulationIterations : Int) :
    Option (LoopExit K) :=
  if TimeStep < MIN_TICK_TIME then
    none
  else
    let bZeroAcceleration := IsZero Acceleration
    if dot Acceleration Velocity > 0 then
      none
    else
      let BrakingDeceleration := max BrakingDeceleration 0
      let Friction := max Friction 0
      let bZeroFriction : Bool := decide (Friction = 0)
      let bZeroBraking : Bool := decide (BrakingDeceleration = 0)
      if bZeroAcceleration = true ∧ bZeroFriction = true then
        none
      else
        let LastVelocity : FVector K :=
          if bZeroAcceleration then Velocity
          else ProjectOnToNormal Velocity (GetSafeNormal sqrt Acceleration)
        let LastVelocity : FVector K := { LastVelocity with Z := 0 }
        let LastLocation := CurrentLocation
        some (simulationLoop sqrt Acceleration Friction BrakingDeceleration TimeStep
          MaxSimulationIterations bZeroAcceleration bZeroFriction bZeroBraking
          0 LastVelocity LastLocation)

/-- `UDistanceMatchingPluginBPLibrary::PredictStopLocation`: the returned
`bool` together with the final content of the reference parameter
`OutStopLocation`, which is written only by the `return true` of line 182. -/
def PredictStopLocation (sqrt : K → K) (OutStopLocation CurrentLocation Velocity
    Acceleration : FVector K) (Friction BrakingDeceleration TimeStep : K)
    (MaxSimulationIterations : Int) : Bool × FVector K :=
  match runSimulation sqrt CurrentLocation Velocity Acceleration Friction BrakingDeceleration
      TimeStep MaxSimulationIterations with
  | none => (false, OutStopLocation)
  | some Exit =>
    if Exit.ReturnValue then (true, Exit.LastLocation) else (false, OutStopLocation)

/-- One pass through the body of the braking sub-step loop, as a record: the
length `dt` of the sub-step, the value of `LastVelocity` after it, and whether
the "don't reverse direction" test fired (the velocity was set to zero and the
loop left by `break`). -/
structure SubStep (K : Type) where
  dt : K
  Velocity : FVector K
  Reversed : Bool

/-- The braking sub-step loop of lines 137-152 again, instrumented: the same
recursion as `brakingLoop`, in exact arithmetic as well, returning the record
of every sub-step in order instead of the final velocity only. -/
def brakingLoopTrace [FloorRing K] (Friction : K) (bZeroFriction : Bool)
    (RevAccel OldVel : FVector K) (RemainingTime : K) (LastVelocity : FVector K) :
    List (SubStep K) :=
  if MIN_TICK_TIME ≤ RemainingTime then
    let dt := subStepTime bZeroFriction RemainingTime
    let NewVelocity := LastVelocity + ((-Friction) * LastVelocity + RevAccel) * dt
    if dot NewVelocity OldVel ≤ 0 then
      [⟨dt, ZeroVector, true⟩]
    else
      ⟨dt, NewVelocity, false⟩ ::
        brakingLoopTrace Friction bZeroFriction RevAccel OldVel (RemainingTime - dt) NewVelocity
  else
    []
termination_by remainingTicks RemainingTime
decreasing_by
  simp_wf
  rename_i hTick _
  have hpos : (0 : K) < RemainingTime :=
    lt_of_lt_of_le (by unfold MIN_TICK_TIME; norm_num) hTick
  have hone : 0 < Int.ceil (RemainingTime * 66) := Int.ceil_pos.mpr (by linarith)
  have hstep : Int.ceil ((RemainingTime - subStepTime bZeroFriction RemainingTime) * 66)
      ≤ Int.ceil (RemainingTime * 66) - 1 := by
    unfold subStepTime MaxTimeStep
    split_ifs with hc
    · have := hc.1
      rw [← Int.ceil_sub_one]
      apply Int.ceil_mono
      rcases le_total (1 / 33 : K) (RemainingTime * (1 / 2)) with hm | hm
      · rw [min_eq_left hm]; linarith
      · rw [min_eq_right hm]; linarith
    · rw [sub_self, zero_mul, Int.ceil_zero]
      omega
  unfold remainingTicks
  omega

end Predict

/-! ## Single precision embedding

The same two functions once more, with the C++ `float` embedded as IEEE 754
binary32 instead of a field.  A finite binary32 number `x` is held as the
integer `x * 2^149` (its number of units of `2^-149`, the spacing of the
smallest binary32 numbers), so the numbers are the integers `± m * 2^k` with
`m < 2^24`.  Every arithmetic operation of the source computes the exact
result and rounds it once to the nearest such number, ties to even; no two
operations are fused.  Comparisons are exact.  Overflow, infinities and NaN are
not embedded (the exponent is not bounded above), and `-0` is `0`.  The loops
take a `fuel`, the number of loop tests they may make: `none` is
"not finished within the fuel". -/

namespace Binary32

/-- A finite binary32 number `x`, held as the integer `x * 2^149`. -/
abbrev Float32 := Int

/-- The number of units in `1.0f`. -/
def U : Nat := 2 ^ 149

/-- The integer nearest to `p / q`, ties to the even one. -/
def roundHalfEven (p q : Nat) : Nat :=
  let f := p / q
  let r := p % q
  if 2 * r < q then f
  else if q < 2 * r then f + 1
  else if f % 2 = 0 then f else f + 1

/-- With `b` binary digits of `k` still to find: the largest `k` with
`2 ^ k ≤ a` among those that extend the digits found so far (`k` itself when
there is none). -/
def excessBits : Nat → Nat → Nat → Nat
  | 0, _, k => k
  | b + 1, a, k =>
    if 2 ^ (k + 2 ^ b) ≤ a then excessBits b a (k + 2 ^ b) else excessBits b a k

/-- Rounding of the non-negative `num / den` units to 24 significant binary
digits: with `k` the number of binary digits of the integer part beyond 24,
the nearest multiple of `2 ^ k`, ties to even.  The eight binary digits of `k`
cover every result below `2^128`, where binary32 overflows. -/
def roundMag (num den : Nat) : Nat :=
  let k := excessBits 8 (num / den / 2 ^ 23) 0
  2 ^ k * roundHalfEven num (den * 2 ^ k)

/-- Rounding of `num / den` units to the nearest binary32 number. -/
def roundUnits (num : Int) (den : Nat) : Float32 :=
  if 0 ≤ num then (roundMag num.natAbs den : Int) else -(roundMag num.natAbs den : Int)

/-- The `float` literal or constant nearest to the fraction `n / d`. -/
def ofRat (n : Int) (d : Nat) : Float32 := roundUnits (n * U) d

/-- C++ `a + b` on `float`. -/
def fadd (a b : Float32) : Float32 := roundUnits (a + b) 1

/-- C++ `a - b` on `float`. -/
def fsub (a b : Float32) : Float32 := roundUnits (a - b) 1

/-- C++ `a * b` on `float`. -/
def fmul (a b : Float32) : Float32 := roundUnits (a * b) U

/-- C++ `a / b` on `float`, for `b` other than zero. -/
def fdiv (a b : Float32) : Float32 :=
  if 0 < b then roundUnits (a * U) b.natAbs else roundUnits (-(a * U)) b.natAbs

/-- One key of a float curve. -/
structure Sample where
  Time : Float32
  Value : Float32
deriving DecidableEq

/-- Engine accessor `FAnimCurveBufferAccess::GetNumSamples`, cast to `int`. -/
def GetNumSamples (CurveBuffer : List Sample) : Int :=
  (CurveBuffer.length : Int)

/-- Engine accessor `FAnimCurveBufferAccess::GetValue`; an index outside the
buffer is a fault (`none`). -/
def GetValue (CurveBuffer : List Sample) (SampleIndex : Int) : Option Float32 :=
  if 0 ≤ SampleIndex then (CurveBuffer[SampleIndex.toNat]?).map Sample.Value else none

/-- Engine accessor `FAnimCurveBufferAccess::GetTime`; an index outside the
buffer is a fault (`none`). -/
def GetTime (CurveBuffer : List Sample) (SampleIndex : Int) : Option Float32 :=
  if 0 ≤ SampleIndex then (CurveBuffer[SampleIndex.toNat]?).map Sample.Time else none

/-- Engine constant `SMALL_NUMBER` (`1.e-8f`). -/
def SMALL_NUMBER : Float32 := ofRat 1 100000000

/-- Engine helper `FMath::IsNearlyZero(Value)`: `Abs(Value) <= SMALL_NUMBER`. -/
def IsNearlyZero (Value : Float32) : Bool :=
  decide ((Value.natAbs : Int) ≤ SMALL_NUMBER)

/-- Engine helper `FMath::Lerp(A, B, Alpha)`: `A + Alpha * (B - A)`. -/
def Lerp (A B Alpha : Float32) : Float32 :=
  fadd A (fmul Alpha (fsub B A))

/-- The `while (Count > 0)` loop of `GetCurveTime` (lines 52-66); it makes
no float arithmetic, only comparisons. -/
def binarySearch (CurveBuffer : List Sample) (CurveValue : Float32) :
    Nat → Int → Int → Option Int
  | 0, _, _ => none
  | fuel + 1, NextIndex, Count =>
    if Count > 0 then
      let Step := Count / 2
      let Middle := NextIndex + Step
      match GetValue CurveBuffer Middle with
      | none => none
      | some MiddleValue =>
        if CurveValue > MiddleValue then
          binarySearch CurveBuffer CurveValue fuel (Middle + 1) (Count - (Step + 1))
        else
          binarySearch CurveBuffer CurveValue fuel NextIndex Step
    else
      some NextIndex

/-- `UDistanceMatchingPluginBPLibrary::GetCurveTime` (lines 30-77) in single
precision.  The search gets as much fuel as there are samples, which is more
than the tests it can make. -/
def GetCurveTime (CurveBuffer : List Sample) (CurveValue : Float32) : Option Float32 :=
  let NumSamples : Int := GetNumSamples CurveBuffer
  let LastIndex : Int := NumSamples - 1
  if NumSamples < 2 then
    some 0
  else
    match GetValue CurveBuffer 0 with
    | none => none
    | some FirstValue =>
      if CurveValue ≤ FirstValue then
        GetTime CurveBuffer 0
      else
        match GetValue CurveBuffer LastIndex with
        | none => none
        | some LastValue =>
          if CurveValue ≥ LastValue then
            GetTime CurveBuffer LastIndex
          else
            match binarySearch CurveBuffer CurveValue CurveBuffer.length 1 (LastIndex - 1) with
            | none => none
            | some NextIndex =>
              let PrevIndex := NextIndex - 1
              match GetValue CurveBuffer PrevIndex, GetValue CurveBuffer NextIndex,
                  GetTime CurveBuffer PrevIndex, GetTime CurveBuffer NextIndex with
              | some PrevCurveValue, some NextCurveValue, some PrevCurveTime, some NextCurveTime =>
                let Diff := fsub NextCurveValue PrevCurveValue
                let Alpha :=
                  if !IsNearlyZero Diff then fdiv (fsub CurveValue PrevCurveValue) Diff else 0
                some (Lerp PrevCurveTime NextCurveTime Alpha)
              | _, _, _, _ => none

/-- The engine's `FVector` with `float` components. -/
structure FVector where
  X : Float32
  Y : Float32
  Z : Float32
deriving DecidableEq

namespace FVector

/-- Engine constant `FVector::ZeroVector`. -/
def ZeroVector : FVector := ⟨0, 0, 0⟩

/-- Engine operator `FVector + FVector`. -/
instance : Add FVector where
  add A B := ⟨fadd A.X B.X, fadd A.Y B.Y, fadd A.Z B.Z⟩

/-- Engine operator `FVector - FVector`. -/
instance : Sub FVector where
  sub A B := ⟨fsub A.X B.X, fsub A.Y B.Y, fsub A.Z B.Z⟩

/-- Engine operator unary `-FVector`. -/
instance : Neg FVector where
  neg A := ⟨-A.X, -A.Y, -A.Z⟩

/-- Engine operator `FVector * float`. -/
instance : HMul FVector Float32 FVector where
  hMul A Scale := ⟨fmul A.X Scale, fmul A.Y Scale, fmul A.Z Scale⟩

/-- Engine operator `float * FVector`, which the engine defines as `V * Scale`. -/
instance : HMul Float32 FVector FVector where
  hMul Scale A := ⟨fmul A.X Scale, fmul A.Y Scale, fmul A.Z Scale⟩

/-- Engine operator `A | B`: `X * V.X + Y * V.Y + Z * V.Z`. -/
def dot (A B : FVector) : Float32 :=
  fadd (fadd (fmul A.X B.X) (fmul A.Y B.Y)) (fmul A.Z B.Z)

/-- Engine method `FVector::IsZero`. -/
def IsZero (A : FVector) : Bool :=
  decide (A.X = 0) && decide (A.Y = 0) && decide (A.Z = 0)

/-- Engine method `FVector::SizeSquared`: `X*X + Y*Y + Z*Z`. -/
def SizeSquared (A : FVector) : Float32 :=
  fadd (fadd (fmul A.X A.X) (fmul A.Y A.Y)) (fmul A.Z A.Z)

/-- Engine method `FVector::Size`; the square root is a parameter. -/
def Size (sqrt : Float32 → Float32) (A : FVector) : Float32 :=
  sqrt (fadd (fadd (fmul A.X A.X) (fmul A.Y A.Y)) (fmul A.Z A.Z))

/-- Engine method `FVector::GetSafeNormal` with its default tolerance; the
engine's `FMath::InvSqrt` is a parameter. -/
def GetSafeNormal (invSqrt : Float32 → Float32) (A : FVector) : FVector :=
  let SquareSum := fadd (fadd (fmul A.X A.X) (fmul A.Y A.Y)) (fmul A.Z A.Z)
  if SquareSum = ofRat 1 1 then
    A
  else if SquareSum < SMALL_NUMBER then
    ZeroVector
  else
    let Scale := invSqrt SquareSum
    ⟨fmul A.X Scale, fmul A.Y Scale, fmul A.Z Scale⟩

/-- Engine method `FVector::ProjectOnToNormal`: `Normal * (this | Normal)`. -/
def ProjectOnToNormal (A Normal : FVector) : FVector :=
  Normal * dot A Normal

end FVector

open FVector

/-- The constant `MIN_TICK_TIME` (line 92): the literal `1e-6` as a `float`. -/
def MIN_TICK_TIME : Float32 := ofRat 1 1000000

/-- The constant `MaxTimeStep` (line 133): `1.0f / 33.0f`. -/
def MaxTimeStep : Float32 := fdiv (ofRat 1 1) (ofRat 33 1)

/-- The length `dt` of the next braking sub-step (line 140). -/
def subStepTime (bZeroFriction : Bool) (RemainingTime : Float32) : Float32 :=
  if RemainingTime > MaxTimeStep ∧ bZeroFriction = false then
    min MaxTimeStep (fmul RemainingTime (ofRat 1 2))
  else
    RemainingTime

/-- What the braking sub-step loop leaves behind: the final `LastVelocity`, the
lengths `dt` of the sub-steps it made, in order, and whether it was left by the
`break` of the "don't reverse direction" test. -/
structure BrakingExit where
  LastVelocity : FVector
  Steps : List Float32
  Reversed : Bool
deriving DecidableEq

/-- The `while (RemainingTime >= MIN_TICK_TIME)` loop of the braking branch
(lines 137-152). -/
def brakingLoop (Friction : Float32) (bZeroFriction : Bool) (RevAccel OldVel : FVector) :
    Nat → Float32 → FVector → Option BrakingExit
  | 0, _, _ => none
  | fuel + 1, RemainingTime, LastVelocity =>
    if MIN_TICK_TIME ≤ RemainingTime then
      let dt := subStepTime bZeroFriction RemainingTime
      let NewVelocity := LastVelocity + ((-Friction) * LastVelocity + RevAccel) * dt
      if dot NewVelocity OldVel ≤ 0 then
        some ⟨ZeroVector, [dt], true⟩
      else
        (brakingLoop Friction bZeroFriction RevAccel OldVel fuel (fsub RemainingTime dt)
          NewVelocity).map (fun Rest => { Rest with Steps := dt :: Rest.Steps })
    else
      some ⟨LastVelocity, [], false⟩

/-- The braking branch of one simulation iteration (lines 130-159). -/
def brakingStep (invSqrt : Float32 → Float32) (Friction BrakingDeceleration TimeStep : Float32)
    (bZeroFriction bZeroBraking : Bool) (fuel : Nat) (LastVelocity : FVector) :
    Option FVector :=
  let OldVel := LastVelocity
  let RevAccel : FVector :=
    if bZeroBraking then ZeroVector
    else (-BrakingDeceleration) * GetSafeNormal invSqrt LastVelocity
  match brakingLoop Friction bZeroFriction RevAccel OldVel fuel TimeStep LastVelocity with
  | none => none
  | some Exit =>
    let LastVelocity := Exit.LastVelocity
    let VSizeSq := SizeSquared LastVelocity
    if VSizeSq ≤ ofRat 1 1 ∨ (bZeroBraking = false ∧ VSizeSq ≤ ofRat 100 1) then
      some ZeroVector
    else
      some LastVelocity

/-- The acceleration branch of one simulation iteration (lines 163-171). -/
def accelerationStep (invSqrt sqrt : Float32 → Float32) (Acceleration : FVector)
    (Friction TimeStep : Float32) (LastVelocity : FVector) : FVector :=
  let TotalAcceleration : FVector := { Acceleration with Z := 0 }
  let AccelDir := GetSafeNormal invSqrt TotalAcceleration
  let VelSize := Size sqrt LastVelocity
  let TotalAcceleration := TotalAcceleration + (-(LastVelocity - AccelDir * VelSize)) * Friction
  LastVelocity + TotalAcceleration * TimeStep

/-- The velocity update of one simulation iteration (lines 128-172). -/
def stepVelocity (invSqrt sqrt : Float32 → Float32) (Acceleration : FVector)
    (Friction BrakingDeceleration TimeStep : Float32)
    (bZeroAcceleration bZeroFriction bZeroBraking : Bool) (fuel : Nat)
    (LastVelocity : FVector) : Option FVector :=
  if bZeroAcceleration then
    brakingStep invSqrt Friction BrakingDeceleration TimeStep bZeroFriction bZeroBraking fuel
      LastVelocity
  else
    some (accelerationStep invSqrt sqrt Acceleration Friction TimeStep LastVelocity)

/-- The locals of `PredictStopLocation` at the moment its main loop is left. -/
structure LoopExit where
  ReturnValue : Bool
  Iterations : Int
  LastVelocity : FVector
  LastLocation : FVector
deriving DecidableEq

/-- The `while (Iterations < MaxSimulationIterations)` loop (lines 121-184);
every braking loop inside gets the fuel `fuel`. -/
def simulationLoop (invSqrt sqrt : Float32 → Float32) (Acceleration : FVector)
    (Friction BrakingDeceleration TimeStep : Float32) (MaxSimulationIterations : Int)
    (bZeroAcceleration bZeroFriction bZeroBraking : Bool) (fuel : Nat) :
    Nat → Int → FVector → FVector → Option LoopExit
  | 0, _, _, _ => none
  | outerFuel + 1, Iterations, LastVelocity, LastLocation =>
    if Iterations < MaxSimulationIterations then
      let OldVel := LastVelocity
      match stepVelocity invSqrt sqrt Acceleration Friction BrakingDeceleration TimeStep
          bZeroAcceleration bZeroFriction bZeroBraking fuel LastVelocity with
      | none => none
      | some NewVelocity =>
        let NewLocation := LastLocation + NewVelocity * TimeStep
        let VSizeSq := SizeSquared NewVelocity
        if VSizeSq ≤ ofRat 1 1 ∨ dot NewVelocity OldVel ≤ 0 then
          some ⟨true, Iterations + 1, NewVelocity, NewLocation⟩
        else
          simulationLoop invSqrt sqrt Acceleration Friction BrakingDeceleration TimeStep
            MaxSimulationIterations bZeroAcceleration bZeroFriction bZeroBraking fuel
            outerFuel (Iterations + 1) NewVelocity NewLocation
    else
      some ⟨false, Iterations, LastVelocity, LastLocation⟩

/-- The body of `PredictStopLocation` up to its return, keeping the locals:
`none` when the fuel does not suffice, `some none` when one of the three entry
checks returns `false` before the loop (lines 93, 100, 110), otherwise the
locals with which the main loop is left. -/
def runSimulation (invSqrt sqrt : Float32 → Float32) (fuel : Nat)
    (CurrentLocation Velocity Acceleration : FVector)
    (Friction BrakingDeceleration TimeStep : Float32) (MaxSimulationIterations : Int) :
    Option (Option LoopExit) :=
  if TimeStep < MIN_TICK_TIME then
    some none
  else
    let bZeroAcceleration := IsZero Acceleration
    if dot Acceleration Velocity > 0 then
      some none
    else
      let BrakingDeceleration := max BrakingDeceleration 0
      let Friction := max Friction 0
      let bZeroFriction : Bool := decide (Friction = 0)
      let bZeroBraking : Bool := decide (BrakingDeceleration = 0)
      if bZeroAcceleration = true ∧ bZeroFriction = true then
        some none
      else
        let LastVelocity : FVector :=
          if bZeroAcceleration then Velocity
          else ProjectOnToNormal Velocity (GetSafeNormal invSqrt Acceleration)
        let LastVelocity : FVector := { LastVelocity with Z := 0 }
        let LastLocation := CurrentLocation
        (simulationLoop invSqrt sqrt Acceleration Friction BrakingDeceleration TimeStep
          MaxSimulationIterations bZeroAcceleration bZeroFriction bZeroBraking fuel
          fuel 0 LastVelocity LastLocation).map some

/-- `UDistanceMatchingPluginBPLibrary::PredictStopLocation` in single
precision: the returned `bool` together with the final content of
`OutStopLocation`, or `none` when the fuel does not suffice. -/
def PredictStopLocation (invSqrt sqrt : Float32 → Float32) (fuel : Nat)
    (OutStopLocation CurrentLocation Velocity Acceleration : FVector)
    (Friction BrakingDeceleration TimeStep : Float32) (MaxSimulationIterations : Int) :
    Option (Bool × FVector) :=
  match runSimulation invSqrt sqrt fuel CurrentLocation Velocity Acceleration Friction
      BrakingDeceleration TimeStep MaxSimulationIterations with
  | none => none
  | some none => some (false, OutStopLocation)
  | some (some Exit) =>
    if Exit.ReturnValue then some (true, Exit.LastLocation) else some (false, OutStopLocation)

end Binary32

/-! ## Properties of the simulation -/

namespace FVector

variable {K : Type} [LinearOrderedField K]

@[simp] theorem add_X (A B : FVector K) : (A + B).X = A.X + B.X := rfl
@[simp] theorem add_Y (A B : FVector K) : (A + B).Y = A.Y + B.Y := rfl
@[simp] theorem add_Z (A B : FVector K) : (A + B).Z = A.Z + B.Z := rfl
@[simp] theorem sub_X (A B : FVector K) : (A - B).X = A.X - B.X := rfl
@[simp] theorem sub_Y (A B : FVector K) : (A - B).Y = A.Y - B.Y := rfl
@[simp] theorem sub_Z (A B : FVector K) : (A - B).Z = A.Z - B.Z := rfl
@[simp] theorem neg_X (A : FVector K) : (-A).X = -A.X := rfl
@[simp] theorem neg_Y (A : FVector K) : (-A).Y = -A.Y := rfl
@[simp] theorem neg_Z (A : FVector K) : (-A).Z = -A.Z := rfl
@[simp] theorem mul_X (A : FVector K) (s : K) : (A * s).X = A.X * s := rfl
@[simp] theorem mul_Y (A : FVector K) (s : K) : (A * s).Y = A.Y * s := rfl
@[simp] theorem mul_Z (A : FVector K) (s : K) : (A * s).Z = A.Z * s := rfl
@[simp] theorem smul_X (s : K) (A : FVector K) : (s * A).X = A.X * s := rfl
@[simp] theorem smul_Y (s : K) (A : FVector K) : (s * A).Y = A.Y * s := rfl
@[simp] theorem smul_Z (s : K) (A : FVector K) : (s * A).Z = A.Z * s := rfl
@[simp] theorem ZeroVector_X : (ZeroVector : FVector K).X = 0 := rfl
@[simp] theorem ZeroVector_Y : (ZeroVector : FVector K).Y = 0 := rfl
@[simp] theorem ZeroVector_Z : (ZeroVector : FVector K).Z = 0 := rfl

theorem IsZero_ZeroVector : IsZero (ZeroVector : FVector K) = true := by
  simp [IsZero]

theorem dot_ZeroVector_left (A : FVector K) : dot ZeroVector A = 0 := by
  simp [dot]

theorem SizeSquared_ZeroVector : SizeSquared (ZeroVector : FVector K) = 0 := by
  simp [SizeSquared]

end FVector

section SimulationFacts

open FVector

variable {K : Type} [LinearOrderedField K] [FloorRing K]

/-- One unfolding of the main loop. -/
theorem simulationLoop_unfold (sqrt : K → K) (Acc : FVector K) (Fr Br dt : K) (Max : Int)
    (zA zF zB : Bool) (it : Int) (v l : FVector K) :
    simulationLoop sqrt Acc Fr Br dt Max zA zF zB it v l =
      if it < Max then
        if SizeSquared (stepVelocity sqrt Acc Fr Br dt zA zF zB v) ≤ 1 ∨
            dot (stepVelocity sqrt Acc Fr Br dt zA zF zB v) v ≤ 0 then
          ⟨true, it + 1, stepVelocity sqrt Acc Fr Br dt zA zF zB v,
            l + stepVelocity sqrt Acc Fr Br dt zA zF zB v * dt⟩
        else
          simulationLoop sqrt Acc Fr Br dt Max zA zF zB (it + 1)
            (stepVelocity sqrt Acc Fr Br dt zA zF zB v)
            (l + stepVelocity sqrt Acc Fr Br dt zA zF zB v * dt)
      else ⟨false, it, v, l⟩ := by
  rw [simulationLoop]

/-- The iteration counter only grows, by at least one when the loop is left by
`return true`, and never passes the budget. -/
theorem simulationLoop_Iterations (sqrt : K → K) (Acc : FVector K) (Fr Br dt : K) (Max : Int)
    (zA zF zB : Bool) (n : Nat) :
    ∀ (it : Int) (v l : FVector K), (Max - it).toNat = n →
      it ≤ (simulationLoop sqrt Acc Fr Br dt Max zA zF zB it v l).Iterations ∧
      (simulationLoop sqrt Acc Fr Br dt Max zA zF zB it v l).Iterations ≤ max Max it ∧
      ((simulationLoop sqrt Acc Fr Br dt Max zA zF zB it v l).ReturnValue = true →
        it + 1 ≤ (simulationLoop sqrt Acc Fr Br dt Max zA zF zB it v l).Iterations) := by
  induction n with
  | zero =>
    intro it v l hn
    have h : ¬ it < Max := by omega
    rw [simulationLoop_unfold, if_neg h]
    simp
  | succ n ih =>
    intro it v l hn
    have h : it < Max := by omega
    rw [simulationLoop_unfold, if_pos h]
    split_ifs with hc
    · refine ⟨by simp, ?_, by simp⟩
      simp only [le_max_iff]
      left; omega
    · obtain ⟨h1, h2, h3⟩ := ih (it + 1) (stepVelocity sqrt Acc Fr Br dt zA zF zB v)
        (l + stepVelocity sqrt Acc Fr Br dt zA zF zB v * dt) (by omega)
      refine ⟨by omega, ?_, fun hr => by have := h3 hr; omega⟩
      rw [max_eq_left (by omega)] at h2
      exact le_trans h2 (le_max_left _ _)

/-- A run that is left by `return true` is left in the same way, with the same
locals, under every larger budget. -/
theorem simulationLoop_budget_mono (sqrt : K → K) (Acc : FVector K) (Fr Br dt : K)
    (N M : Int) (hNM : N ≤ M) (zA zF zB : Bool) (n : Nat) :
    ∀ (it : Int) (v l : FVector K), (N - it).toNat = n →
      (simulationLoop sqrt Acc Fr Br dt N zA zF zB it v l).ReturnValue = true →
      simulationLoop sqrt Acc Fr Br dt M zA zF zB it v l
        = simulationLoop sqrt Acc Fr Br dt N zA zF zB it v l := by
  induction n with
  | zero =>
    intro it v l hn hr
    have h : ¬ it < N := by omega
    rw [simulationLoop_unfold, if_neg h] at hr
    simp at hr
  | succ n ih =>
    intro it v l hn hr
    have h : it < N := by omega
    have hM : it < M := by omega
    rw [simulationLoop_unfold, if_pos h] at hr
    rw [simulationLoop_unfold sqrt Acc Fr Br dt M, simulationLoop_unfold sqrt Acc Fr Br dt N,
      if_pos h, if_pos hM]
    split_ifs with hc
    · rfl
    · rw [if_neg hc] at hr
      exact ih _ _ _ (by omega) hr

/-- The entry checks do not look at the budget: either they fail for every
budget, or the main loop is entered from the same locals for every budget. -/
theorem runSimulation_cases (sqrt : K → K) (Cur Vel Acc : FVector K) (Fr Br dt : K) :
    (∀ Max : Int, runSimulation sqrt Cur Vel Acc Fr Br dt Max = none) ∨
    (∃ (zA zF zB : Bool) (v0 : FVector K), ∀ Max : Int,
      runSimulation sqrt Cur Vel Acc Fr Br dt Max
        = some (simulationLoop sqrt Acc (max Fr 0) (max Br 0) dt Max zA zF zB 0 v0 Cur)) := by
  by_cases h1 : dt < MIN_TICK_TIME
  · left; intro Max; simp [runSimulation, h1]
  by_cases h2 : dot Acc Vel > 0
  · left; intro Max; simp [runSimulation, h1, h2]
  by_cases h3 : IsZero Acc = true ∧ decide (max Fr 0 = 0) = true
  · left; intro Max
    unfold runSimulation
    simp only [h1, h2, if_false]
    rw [if_pos h3]
  · right
    refine ⟨IsZero Acc, decide (max Fr 0 = 0), decide (max Br 0 = 0),
      { (if IsZero Acc = true then Vel else ProjectOnToNormal Vel (GetSafeNormal sqrt Acc))
        with Z := 0 }, fun Max => ?_⟩
    unfold runSimulation
    simp only [h1, h2, if_false]
    rw [if_neg h3]

/-- The function's result read off the locals at its return. -/
theorem PredictStopLocation_of_some (sqrt : K → K) (Out Cur Vel Acc : FVector K)
    (Fr Br dt : K) (Max : Int) (e : LoopExit K)
    (h : runSimulation sqrt Cur Vel Acc Fr Br dt Max = some e) :
    PredictStopLocation sqrt Out Cur Vel Acc Fr Br dt Max
      = if e.ReturnValue = true then (true, e.LastLocation) else (false, Out) := by
  unfold PredictStopLocation
  rw [h]

theorem PredictStopLocation_of_none (sqrt : K → K) (Out Cur Vel Acc : FVector K)
    (Fr Br dt : K) (Max : Int)
    (h : runSimulation sqrt Cur Vel Acc Fr Br dt Max = none) :
    PredictStopLocation sqrt Out Cur Vel Acc Fr Br dt Max = (false, Out) := by
  unfold PredictStopLocation
  rw [h]

/-- One unfolding of the braking sub-step loop. -/
theorem brakingLoop_unfold (Fr : K) (zF : Bool) (RevAccel OldVel : FVector K) (t : K)
    (v : FVector K) :
    brakingLoop Fr zF RevAccel OldVel t v =
      if MIN_TICK_TIME ≤ t then
        if dot (v + ((-Fr) * v + RevAccel) * subStepTime zF t) OldVel ≤ 0 then ZeroVector
        else brakingLoop Fr zF RevAccel OldVel (t - subStepTime zF t)
          (v + ((-Fr) * v + RevAccel) * subStepTime zF t)
      else v := by
  rw [brakingLoop]

/-- A time step of at most `MaxTimeStep` is taken in a single sub-step: when
the direction does not reverse, the loop applies friction and braking once
over the whole time step. -/
theorem brakingLoop_single (Fr : K) (zF : Bool) (RevAccel OldVel : FVector K) (dt : K)
    (v : FVector K) (h1 : MIN_TICK_TIME ≤ dt) (h2 : dt ≤ MaxTimeStep)
    (hd : 0 < dot (v + ((-Fr) * v + RevAccel) * dt) OldVel) :
    brakingLoop Fr zF RevAccel OldVel dt v = v + ((-Fr) * v + RevAccel) * dt := by
  have hs : subStepTime zF dt = dt := by
    unfold subStepTime
    rw [if_neg]
    intro h
    exact absurd h.1 (not_lt.mpr h2)
  have h0 : ¬ MIN_TICK_TIME ≤ (0 : K) := by unfold MIN_TICK_TIME; norm_num
  rw [brakingLoop_unfold, if_pos h1, hs, if_neg (not_le.mpr hd), sub_self, brakingLoop_unfold,
    if_neg h0]

/-- The spec's friction-only scenario, one iteration: friction 2, no braking,
time step 1/60, from a velocity `(a, 0, 0)` with `a > 0`.  The speed is scaled
by 29/30 and snapped to zero once its square is at most 1. -/
theorem scenario_step (sqrt : K → K) (a : K) (ha : 0 < a) :
    stepVelocity sqrt ZeroVector 2 0 (1 / 60) true false true ⟨a, 0, 0⟩
      = if a * (29 / 30) * (a * (29 / 30)) ≤ 1 then ZeroVector else ⟨a * (29 / 30), 0, 0⟩ := by
  have hv : (⟨a, 0, 0⟩ : FVector K) + ((-2 : K) * (⟨a, 0, 0⟩ : FVector K) + ZeroVector) * (1 / 60 : K)
      = ⟨a * (29 / 30), 0, 0⟩ := by
    ext
    · simp; ring
    · simp
    · simp
  have hloop : brakingLoop (2 : K) false ZeroVector ⟨a, 0, 0⟩ (1 / 60) ⟨a, 0, 0⟩
      = ⟨a * (29 / 30), 0, 0⟩ := by
    rw [brakingLoop_single (2 : K) false ZeroVector ⟨a, 0, 0⟩ (1 / 60) ⟨a, 0, 0⟩
      (by unfold MIN_TICK_TIME; norm_num) (by unfold MaxTimeStep; norm_num)
      (by rw [hv]; simp only [dot]; nlinarith), hv]
  unfold stepVelocity brakingStep
  simp only [if_true, hloop, SizeSquared, Bool.true_eq_false, false_and, or_false, mul_zero,
    add_zero]

/-- The entry checks in the spec's friction-only scenario: the main loop is
entered with the velocity (500,0,0) in braking mode, with friction and without
braking. -/
theorem scenario_entry (sqrt : K → K) (Cur : FVector K) (Max : Int) :
    runSimulation sqrt Cur ⟨500, 0, 0⟩ ZeroVector 2 0 (1 / 60) Max
      = some (simulationLoop sqrt ZeroVector 2 0 (1 / 60) Max true false true 0
          ⟨500, 0, 0⟩ Cur) := by
  have h1 : ¬ ((1 / 60 : K) < MIN_TICK_TIME) := by unfold MIN_TICK_TIME; norm_num
  have h2 : max (2 : K) 0 = 2 := max_eq_left (by norm_num)
  have h3 : (2 : K) ≠ 0 := by norm_num
  unfold runSimulation
  simp only [h1, if_false, dot_ZeroVector_left, gt_iff_lt, lt_irrefl, IsZero_ZeroVector,
    max_self, h2, h3, decide_False, decide_True, Bool.false_eq_true, and_false, if_true]

omit [FloorRing K] in
/-- The speed of the friction-only scenario stays above 1 for 183 iterations
and is at most 1 after the 184th. -/
theorem scenario_speed (k : Nat) (hk : k ≤ 183) :
    (1 : K) < 500 * (29 / 30) ^ k ∧ (500 * (29 / 30 : K) ^ 183 * (29 / 30)) ≤ 1 := by
  have h1 : (29 / 30 : K) ^ 183 ≤ (29 / 30) ^ k :=
    pow_le_pow_of_le_one (by norm_num) (by norm_num) hk
  have h2 : (1 : K) < 500 * (29 / 30) ^ 183 := by norm_num
  constructor
  · linarith
  · norm_num

/-- The main loop in the friction-only scenario, entered at iteration `n` with
the speed `500 * (29/30)^n`: under a budget of at least 184 it is left by
`return true` in iteration 184 with the velocity snapped to zero; the location
has moved along +X only. -/
theorem scenario_loop (sqrt : K → K) (Max : Int) (hMax : 184 ≤ Max) (m : Nat) :
    ∀ (n : Nat) (loc : FVector K), n + m = 183 →
      ∃ e : LoopExit K,
        simulationLoop sqrt ZeroVector 2 0 (1 / 60) Max true false true (n : Int)
          ⟨500 * (29 / 30) ^ n, 0, 0⟩ loc = e ∧
        e.ReturnValue = true ∧ e.Iterations = 184 ∧ e.LastVelocity = ZeroVector ∧
        loc.X ≤ e.LastLocation.X ∧ (n < 183 → loc.X < e.LastLocation.X) ∧
        e.LastLocation.Y = loc.Y ∧ e.LastLocation.Z = loc.Z := by
  induction m with
  | zero =>
    intro n loc hn
    have hn183 : n = 183 := by omega
    subst hn183
    have hpos : (0 : K) < 500 * (29 / 30) ^ 183 := by positivity
    have hsmall := (scenario_speed (K := K) 183 (le_refl _)).2
    have hsq : 500 * (29 / 30 : K) ^ 183 * (29 / 30) * (500 * (29 / 30 : K) ^ 183 * (29 / 30)) ≤ 1 := by
      have h0 : (0 : K) ≤ 500 * (29 / 30 : K) ^ 183 * (29 / 30) := by positivity
      nlinarith
    have hlt : ((183 : Nat) : Int) < Max := by omega
    refine ⟨_, rfl, ?_⟩
    rw [simulationLoop_unfold, if_pos hlt, scenario_step sqrt _ hpos, if_pos hsq,
      if_pos (Or.inl (by rw [SizeSquared_ZeroVector]; norm_num))]
    refine ⟨rfl, by norm_num, rfl, by simp, by simp, by simp, by simp⟩
  | succ m ih =>
    intro n loc hn
    have hpos : (0 : K) < 500 * (29 / 30) ^ n := by positivity
    have hbig : (1 : K) < 500 * (29 / 30) ^ (n + 1) :=
      (scenario_speed (K := K) (n + 1) (by omega)).1
    have hnext : 500 * (29 / 30 : K) ^ n * (29 / 30) = 500 * (29 / 30) ^ (n + 1) := by
      rw [pow_succ]; ring
    have hsq : ¬ (500 * (29 / 30 : K) ^ n * (29 / 30) * (500 * (29 / 30 : K) ^ n * (29 / 30)) ≤ 1) := by
      rw [hnext, not_le]
      nlinarith
    have hlt : (n : Int) < Max := by omega
    have hconv : ¬ (SizeSquared (⟨500 * (29 / 30) ^ (n + 1), 0, 0⟩ : FVector K) ≤ 1 ∨
        dot (⟨500 * (29 / 30) ^ (n + 1), 0, 0⟩ : FVector K) ⟨500 * (29 / 30) ^ n, 0, 0⟩ ≤ 0) := by
      simp only [SizeSquared, dot, mul_zero, add_zero, not_or, not_le]
      constructor
      · nlinarith
      · positivity
    obtain ⟨e, he, h1, h2, h3, h4, _, h6, h7⟩ :=
      ih (n + 1) (loc + (⟨500 * (29 / 30) ^ (n + 1), 0, 0⟩ : FVector K) * (1 / 60 : K)) (by omega)
    have hcast : (n : Int) + 1 = ((n + 1 : Nat) : Int) := by push_cast; ring
    refine ⟨e, ?_, h1, h2, h3, ?_, fun _ => ?_, ?_, ?_⟩
    · rw [simulationLoop_unfold, if_pos hlt, scenario_step sqrt _ hpos, if_neg hsq, hnext,
        if_neg hconv, hcast]
      exact he
    · have hx : loc.X ≤ (loc + (⟨500 * (29 / 30) ^ (n + 1), 0, 0⟩ : FVector K) * (1 / 60 : K)).X := by
        simp only [add_X, mul_X]
        linarith
      exact le_trans hx h4
    · have hx : loc.X < (loc + (⟨500 * (29 / 30) ^ (n + 1), 0, 0⟩ : FVector K) * (1 / 60 : K)).X := by
        simp only [add_X, mul_X]
        linarith
      exact lt_of_lt_of_le hx h4
    · rw [h6]; simp
    · rw [h7]; simp

/-- What the entry checks establish when the main loop is entered, and the
locals with which it is entered. -/
theorem runSimulation_entered (sqrt : K → K) (Cur Vel Acc : FVector K) (Fr Br dt : K)
    (Max : Int) (e : LoopExit K)
    (h : runSimulation sqrt Cur Vel Acc Fr Br dt Max = some e) :
    MIN_TICK_TIME ≤ dt ∧ dot Acc Vel ≤ 0 ∧ ¬ (IsZero Acc = true ∧ max Fr 0 = 0) ∧
    e = simulationLoop sqrt Acc (max Fr 0) (max Br 0) dt Max (IsZero Acc)
      (decide (max Fr 0 = 0)) (decide (max Br 0 = 0)) 0
      { (if IsZero Acc = true then Vel else ProjectOnToNormal Vel (GetSafeNormal sqrt Acc))
        with Z := 0 } Cur := by
  unfold runSimulation at h
  by_cases h1 : dt < MIN_TICK_TIME
  · rw [if_pos h1] at h; cases h
  rw [if_neg h1] at h
  by_cases h2 : dot Acc Vel > 0
  · simp only [h2, if_true] at h; cases h
  simp only [h2, if_false] at h
  by_cases h3 : IsZero Acc = true ∧ decide (max Fr 0 = 0) = true
  · rw [if_pos h3] at h; cases h
  rw [if_neg h3] at h
  refine ⟨not_lt.mp h1, not_lt.mp h2, ?_, (Option.some.inj h).symm⟩
  intro h4
  exact h3 ⟨h4.1, by simpa using h4.2⟩

/-- The converse: when the three entry checks pass, the main loop is entered. -/
theorem runSimulation_of_checks (sqrt : K → K) (Cur Vel Acc : FVector K) (Fr Br dt : K)
    (Max : Int) (h1 : MIN_TICK_TIME ≤ dt) (h2 : dot Acc Vel ≤ 0)
    (h3 : ¬ (IsZero Acc = true ∧ max Fr 0 = 0)) :
    runSimulation sqrt Cur Vel Acc Fr Br dt Max
      = some (simulationLoop sqrt Acc (max Fr 0) (max Br 0) dt Max (IsZero Acc)
        (decide (max Fr 0 = 0)) (decide (max Br 0 = 0)) 0
        { (if IsZero Acc = true then Vel else ProjectOnToNormal Vel (GetSafeNormal sqrt Acc))
          with Z := 0 } Cur) := by
  have h3b : ¬ (IsZero Acc = true ∧ decide (max Fr 0 = 0) = true) := by
    intro h4
    exact h3 ⟨h4.1, by simpa using h4.2⟩
  unfold runSimulation
  rw [if_neg (not_lt.mpr h1)]
  simp only [gt_iff_lt, not_lt.mpr h2, if_false]
  rw [if_neg h3b]

/-- The measure of the braking sub-step loop strictly decreases with every
sub-step. -/
theorem remainingTicks_lt (zF : Bool) (t : K) (h : MIN_TICK_TIME ≤ t) :
    remainingTicks (t - subStepTime zF t) < remainingTicks t := by
  have hpos : (0 : K) < t := lt_of_lt_of_le (by unfold MIN_TICK_TIME; norm_num) h
  have hone : 0 < Int.ceil (t * 66) := Int.ceil_pos.mpr (by linarith)
  have hstep : Int.ceil ((t - subStepTime zF t) * 66) ≤ Int.ceil (t * 66) - 1 := by
    unfold subStepTime MaxTimeStep
    split_ifs with hc
    · have := hc.1
      rw [← Int.ceil_sub_one]
      apply Int.ceil_mono
      rcases le_total (1 / 33 : K) (t * (1 / 2)) with hm | hm
      · rw [min_eq_left hm]; linarith
      · rw [min_eq_right hm]; linarith
    · rw [sub_self, zero_mul, Int.ceil_zero]
      omega
  unfold remainingTicks
  omega

omit [FloorRing K] in
theorem GetSafeNormal_Z (sqrt : K → K) (A : FVector K) (h : A.Z = 0) :
    (GetSafeNormal sqrt A).Z = 0 := by
  unfold GetSafeNormal
  simp only
  split_ifs
  · exact h
  · rfl
  · simp [h]

/-- The braking sub-step loop keeps a zero Z component. -/
theorem brakingLoop_Z (Fr : K) (zF : Bool) (RevAccel OldVel : FVector K)
    (hR : RevAccel.Z = 0) (n : Nat) :
    ∀ (t : K) (v : FVector K), remainingTicks t = n → v.Z = 0 →
      (brakingLoop Fr zF RevAccel OldVel t v).Z = 0 := by
  induction n using Nat.strong_induction_on with
  | _ n ih =>
    intro t v hn hv
    rw [brakingLoop_unfold]
    split_ifs with h1 h2
    · rfl
    · exact ih _ (hn ▸ remainingTicks_lt zF t h1) _ _ rfl (by simp [hv, hR])
    · exact hv

/-- One simulation iteration keeps a zero Z component, in both branches. -/
theorem stepVelocity_Z (sqrt : K → K) (Acc : FVector K) (Fr Br dt : K) (zA zF zB : Bool)
    (v : FVector K) (hv : v.Z = 0) :
    (stepVelocity sqrt Acc Fr Br dt zA zF zB v).Z = 0 := by
  unfold stepVelocity
  split_ifs
  · unfold brakingStep
    have hR : (if zB = true then (ZeroVector : FVector K)
        else (-Br) * GetSafeNormal sqrt v).Z = 0 := by
      split_ifs
      · rfl
      · simp [GetSafeNormal_Z sqrt v hv]
    have hL := brakingLoop_Z Fr zF _ v hR _ dt v rfl hv
    simp only
    generalize brakingLoop Fr zF (if zB = true then (ZeroVector : FVector K)
        else (-Br) * GetSafeNormal sqrt v) v dt v = w at hL ⊢
    split_ifs
    · rfl
    · exact hL
  · unfold accelerationStep
    have hN : (GetSafeNormal sqrt ({ Acc with Z := 0 } : FVector K)).Z = 0 :=
      GetSafeNormal_Z sqrt _ rfl
    simp [hv, hN]

/-- The main loop keeps a zero Z component of the working velocity and never
moves the working location along Z. -/
theorem simulationLoop_Z (sqrt : K → K) (Acc : FVector K) (Fr Br dt : K) (Max : Int)
    (zA zF zB : Bool) (n : Nat) :
    ∀ (it : Int) (v l : FVector K), (Max - it).toNat = n → v.Z = 0 →
      (simulationLoop sqrt Acc Fr Br dt Max zA zF zB it v l).LastVelocity.Z = 0 ∧
      (simulationLoop sqrt Acc Fr Br dt Max zA zF zB it v l).LastLocation.Z = l.Z := by
  induction n with
  | zero =>
    intro it v l hn hv
    have h : ¬ it < Max := by omega
    rw [simulationLoop_unfold, if_neg h]
    exact ⟨hv, rfl⟩
  | succ n ih =>
    intro it v l hn hv
    have h : it < Max := by omega
    have hz := stepVelocity_Z sqrt Acc Fr Br dt zA zF zB v hv
    rw [simulationLoop_unfold, if_pos h]
    split_ifs with hc
    · exact ⟨hz, by simp [hz]⟩
    · obtain ⟨h1, h2⟩ := ih (it + 1) _ (l + stepVelocity sqrt Acc Fr Br dt zA zF zB v * dt)
        (by omega) hz
      exact ⟨h1, by rw [h2]; simp [hz]⟩

omit [FloorRing K] in
theorem GetSafeNormal_ZeroVector (sqrt : K → K) :
    GetSafeNormal sqrt (ZeroVector : FVector K) = ZeroVector := by
  have h1 : ¬ ((0 : K) = 1) := by norm_num
  have h2 : (0 : K) < SMALL_NUMBER := by unfold SMALL_NUMBER; norm_num
  unfold GetSafeNormal
  simp [h2]

/-- One unfolding of the instrumented braking sub-step loop. -/
theorem brakingLoopTrace_unfold (Fr : K) (zF : Bool) (RevAccel OldVel : FVector K) (t : K)
    (v : FVector K) :
    brakingLoopTrace Fr zF RevAccel OldVel t v =
      if MIN_TICK_TIME ≤ t then
        if dot (v + ((-Fr) * v + RevAccel) * subStepTime zF t) OldVel ≤ 0 then
          [⟨subStepTime zF t, ZeroVector, true⟩]
        else
          ⟨subStepTime zF t, v + ((-Fr) * v + RevAccel) * subStepTime zF t, false⟩ ::
            brakingLoopTrace Fr zF RevAccel OldVel (t - subStepTime zF t)
              (v + ((-Fr) * v + RevAccel) * subStepTime zF t)
      else [] := by
  rw [brakingLoopTrace]

/-- The instrumented loop is the loop: the velocity that `brakingLoop` returns
is the velocity of the last recorded sub-step, or the initial velocity when no
sub-step is taken. -/
theorem brakingLoop_eq_trace (Fr : K) (zF : Bool) (RevAccel OldVel : FVector K) (n : Nat) :
    ∀ (t : K) (v : FVector K), remainingTicks t = n →
      brakingLoop Fr zF RevAccel OldVel t v
        = (((brakingLoopTrace Fr zF RevAccel OldVel t v).getLast?).map SubStep.Velocity).getD v := by
  induction n using Nat.strong_induction_on with
  | _ n ih =>
    intro t v hn
    rw [brakingLoop_unfold, brakingLoopTrace_unfold]
    split_ifs with h1 h2
    · rfl
    · rw [ih _ (hn ▸ remainingTicks_lt zF t h1) _ _ rfl]
      cases hrest : brakingLoopTrace Fr zF RevAccel OldVel (t - subStepTime zF t)
          (v + ((-Fr) * v + RevAccel) * subStepTime zF t) with
      | nil => rfl
      | cons s rest =>
        rw [List.getLast?_cons_cons, List.getLast?_eq_getLast _ (List.cons_ne_nil s rest)]
        rfl
    · rfl

omit [FloorRing K] in
/-- The length of a sub-step: positive, and at most `MaxTimeStep` when the
friction is not zero; at least 1/66 while more than `MaxTimeStep` remains, and
all that remains otherwise. -/
theorem subStepTime_bounds (zF : Bool) (t : K) (h : MIN_TICK_TIME ≤ t) :
    0 < subStepTime zF t ∧ subStepTime zF t ≤ t ∧
    (zF = false → subStepTime zF t ≤ MaxTimeStep) ∧
    (MaxTimeStep < t → 1 / 66 ≤ subStepTime zF t) ∧
    (MaxTimeStep < t → zF = false → MIN_TICK_TIME ≤ t - subStepTime zF t) ∧
    (t ≤ MaxTimeStep → t - subStepTime zF t = 0) := by
  have hpos : (0 : K) < t := lt_of_lt_of_le (by unfold MIN_TICK_TIME; norm_num) h
  unfold subStepTime MaxTimeStep MIN_TICK_TIME
  split_ifs with hc
  · have h1 : (1 / 33 : K) < t := hc.1
    rcases le_total (1 / 33 : K) (t * (1 / 2)) with hm | hm
    · rw [min_eq_left hm]
      refine ⟨by norm_num, by linarith, fun _ => le_refl _, fun _ => by norm_num,
        fun _ _ => by linarith, fun h2 => absurd h1 (not_lt.mpr h2)⟩
    · rw [min_eq_right hm]
      refine ⟨by linarith, by linarith, fun _ => hm, fun _ => by linarith,
        fun _ _ => by linarith, fun h2 => absurd h1 (not_lt.mpr h2)⟩
  · refine ⟨hpos, le_refl _, fun hz => ?_, fun h2 => by linarith, fun h2 hz => ?_,
      fun _ => sub_self t⟩
    · by_contra hgt
      exact hc ⟨not_le.mp hgt, hz⟩
    · exact absurd ⟨h2, hz⟩ hc

/-- With non-zero friction every recorded sub-step is positive and at most
`MaxTimeStep`, and when no sub-step reverses the direction the sub-steps add up
to the whole time step. -/
theorem brakingLoopTrace_steps (Fr : K) (RevAccel OldVel : FVector K) (n : Nat) :
    ∀ (t : K) (v : FVector K), remainingTicks t = n →
      (∀ s ∈ brakingLoopTrace Fr false RevAccel OldVel t v, 0 < s.dt ∧ s.dt ≤ MaxTimeStep) ∧
      ((MIN_TICK_TIME ≤ t ∨ t = 0) →
        (∀ s ∈ brakingLoopTrace Fr false RevAccel OldVel t v, s.Reversed = false) →
        ((brakingLoopTrace Fr false RevAccel OldVel t v).map SubStep.dt).sum = t) := by
  induction n using Nat.strong_induction_on with
  | _ n ih =>
    intro t v hn
    rw [brakingLoopTrace_unfold]
    split_ifs with h1 h2
    · obtain ⟨hb1, _, hb3, _⟩ := subStepTime_bounds false t h1
      refine ⟨fun s hs => ?_, fun _ hrev => ?_⟩
      · rw [List.mem_singleton] at hs
        subst hs
        exact ⟨hb1, hb3 rfl⟩
      · have := hrev _ (List.mem_singleton.mpr rfl)
        simp at this
    · obtain ⟨hb1, _, hb3, _, hb5, hb6⟩ := subStepTime_bounds false t h1
      obtain ⟨ih1, ih2⟩ := ih _ (hn ▸ remainingTicks_lt false t h1) (t - subStepTime false t)
        (v + ((-Fr) * v + RevAccel) * subStepTime false t) rfl
      refine ⟨fun s hs => ?_, fun _ hrev => ?_⟩
      · rcases List.mem_cons.mp hs with hs | hs
        · subst hs
          exact ⟨hb1, hb3 rfl⟩
        · exact ih1 s hs
      · have hrest : MIN_TICK_TIME ≤ t - subStepTime false t ∨ t - subStepTime false t = 0 := by
          rcases lt_or_le MaxTimeStep t with hgt | hle
          · exact Or.inl (hb5 hgt rfl)
          · exact Or.inr (hb6 hle)
        rw [List.map_cons, List.sum_cons,
          ih2 hrest (fun s hs => hrev s (List.mem_cons_of_mem _ hs))]
        ring
    · refine ⟨fun s hs => absurd hs (List.not_mem_nil s), fun ht _ => ?_⟩
      rcases ht with ht | ht
      · exact absurd ht h1
      · simp [ht]

omit [FloorRing K] in
theorem mul_one_vec (u : FVector K) : u * (1 : K) = u := by
  ext <;> simp

omit [FloorRing K] in
theorem mul_zero_vec (u : FVector K) : u * (0 : K) = ZeroVector := by
  ext <;> simp

omit [FloorRing K] in
theorem mul_mul_vec (u : FVector K) (a c : K) : (u * a) * c = u * (a * c) := by
  ext <;> simp [mul_assoc]

omit [FloorRing K] in
theorem SizeSquared_nonneg (u : FVector K) : 0 ≤ SizeSquared u := by
  unfold SizeSquared
  nlinarith [mul_self_nonneg u.X, mul_self_nonneg u.Y, mul_self_nonneg u.Z]

omit [FloorRing K] in
theorem SizeSquared_mul (u : FVector K) (a : K) :
    SizeSquared (u * a) = a * a * SizeSquared u := by
  simp only [SizeSquared, mul_X, mul_Y, mul_Z]
  ring

omit [FloorRing K] in
theorem dot_mul_self (u : FVector K) (a : K) : dot (u * a) u = a * SizeSquared u := by
  simp only [dot, SizeSquared, mul_X, mul_Y, mul_Z]
  ring

omit [FloorRing K] in
theorem dot_mul_mul (u : FVector K) (a c : K) :
    dot (u * a) (u * c) = a * c * SizeSquared u := by
  simp only [dot, SizeSquared, mul_X, mul_Y, mul_Z]
  ring

omit [FloorRing K] in
/-- One braking sub-step on a multiple of `u`, with a braking acceleration
along `u`, gives a multiple of `u`. -/
theorem subStep_collinear (Fr : K) (u : FVector K) (k c d : K) :
    u * c + ((-Fr) * (u * c) + u * k) * d = u * (c + (c * (-Fr) + k) * d) := by
  ext <;> simp <;> ring

omit [FloorRing K] in
/-- The engine's safe normal is a multiple of its argument, by a factor that is
not negative when the square root is not negative. -/
theorem GetSafeNormal_collinear (sqrt : K → K) (u : FVector K) :
    ∃ sc : K, GetSafeNormal sqrt u = u * sc ∧ ((∀ x, 0 ≤ sqrt x) → 0 ≤ sc) := by
  unfold GetSafeNormal
  simp only
  split_ifs
  · exact ⟨1, (mul_one_vec u).symm, fun _ => zero_le_one⟩
  · exact ⟨0, (mul_zero_vec u).symm, fun _ => le_refl _⟩
  · refine ⟨InvSqrt sqrt (u.X * u.X + u.Y * u.Y + u.Z * u.Z), rfl, fun h => ?_⟩
    unfold InvSqrt
    exact div_nonneg zero_le_one (h _)

omit [FloorRing K] in
/-- The braking acceleration `RevAccel` of an outer iteration is a multiple of
the velocity at the start of the iteration, by a factor that is not positive
when the square root and the braking deceleration are not negative. -/
theorem RevAccel_collinear (sqrt : K → K) (Br : K) (zB : Bool) (u : FVector K) :
    ∃ k : K, (if zB = true then (ZeroVector : FVector K) else (-Br) * GetSafeNormal sqrt u)
        = u * k ∧ ((∀ x, 0 ≤ sqrt x) → 0 ≤ Br → k ≤ 0) := by
  split_ifs
  · exact ⟨0, (mul_zero_vec u).symm, fun _ _ => le_refl _⟩
  · obtain ⟨sc, hsc, hpos⟩ := GetSafeNormal_collinear sqrt u
    refine ⟨sc * (-Br), ?_, fun h hB => ?_⟩
    · rw [hsc]
      ext <;> simp [mul_assoc]
    · have := hpos h
      nlinarith

/-- The braking loop on a multiple `u * c` of the iteration's start velocity
`u`, `c > 0`, with a braking acceleration `u * k`: the result is a multiple
`u * c'` with `c' >= 0`; and `c' <= c` when friction is not negative and the
braking acceleration points against `u`. -/
theorem brakingLoop_scale (Fr : K) (zF : Bool) (u : FVector K) (k : K) (n : Nat) :
    ∀ (t c : K), remainingTicks t = n → 0 < c →
      ∃ c' : K, brakingLoop Fr zF (u * k) u t (u * c) = u * c' ∧ 0 ≤ c' ∧
        (0 ≤ Fr → k ≤ 0 → c' ≤ c) := by
  induction n using Nat.strong_induction_on with
  | _ n ih =>
    intro t c hn hc
    rw [brakingLoop_unfold]
    by_cases h1 : MIN_TICK_TIME ≤ t
    · rw [if_pos h1, subStep_collinear, dot_mul_self]
      have hS := SizeSquared_nonneg u
      obtain ⟨hd, _⟩ := subStepTime_bounds zF t h1
      by_cases h2 : (c + (c * (-Fr) + k) * subStepTime zF t) * SizeSquared u ≤ 0
      · rw [if_pos h2]
        exact ⟨0, (mul_zero_vec u).symm, le_refl _, fun _ _ => le_of_lt hc⟩
      · have hc1 : 0 < c + (c * (-Fr) + k) * subStepTime zF t := by
          by_contra h4
          exact h2 (mul_nonpos_of_nonpos_of_nonneg (not_lt.mp h4) hS)
        rw [if_neg h2]
        obtain ⟨c', he, h0, hle⟩ := ih _ (hn ▸ remainingTicks_lt zF t h1) _ _ rfl hc1
        refine ⟨c', he, h0, fun hF hk => le_trans (hle hF hk) ?_⟩
        have : (c * (-Fr) + k) * subStepTime zF t ≤ 0 :=
          mul_nonpos_of_nonpos_of_nonneg (by nlinarith) (le_of_lt hd)
        linarith
    · rw [if_neg h1]
      exact ⟨c, rfl, le_of_lt hc, fun _ _ => le_refl _⟩

/-- One braking iteration scales the velocity by a factor that is not
negative. -/
theorem brakingStep_scale (sqrt : K → K) (Fr Br dt : K) (zF zB : Bool) (v : FVector K) :
    ∃ c' : K, brakingStep sqrt Fr Br dt zF zB v = v * c' ∧ 0 ≤ c' ∧
      ((∀ x, 0 ≤ sqrt x) → 0 ≤ Fr → 0 ≤ Br → c' ≤ 1) := by
  obtain ⟨k, hk, hkneg⟩ := RevAccel_collinear sqrt Br zB v
  obtain ⟨c', he, h0, hle⟩ := brakingLoop_scale Fr zF v k _ dt 1 rfl zero_lt_one
  rw [mul_one_vec] at he
  unfold brakingStep
  simp only
  rw [hk, he]
  split_ifs
  · exact ⟨0, (mul_zero_vec v).symm, le_refl _, fun _ _ _ => zero_le_one⟩
  · exact ⟨c', rfl, h0, fun hs hF hB => hle hF (hkneg hs hB)⟩

omit [FloorRing K] in
theorem add_mul_vec (l u : FVector K) (a b d : K) :
    (l + u * b) + (u * a) * d = l + u * (b + a * d) := by
  ext <;> simp <;> ring

omit [FloorRing K] in
theorem add_mul_zero_vec (l u : FVector K) : l + u * (0 : K) = l := by
  ext <;> simp

/-- In braking mode the main loop keeps the working velocity a non-negative
multiple of a fixed vector `u` and the working location at a non-negative
multiple of `u` from a fixed point. -/
theorem simulationLoop_braking_scale (sqrt : K → K) (Acc : FVector K) (Fr Br dt : K)
    (Max : Int) (zF zB : Bool) (u l0 : FVector K) (hdt : 0 ≤ dt) (n : Nat) :
    ∀ (it : Int) (a b : K), (Max - it).toNat = n → 0 ≤ a → 0 ≤ b →
      ∃ a' b' : K, 0 ≤ a' ∧ 0 ≤ b' ∧
        (simulationLoop sqrt Acc Fr Br dt Max true zF zB it (u * a) (l0 + u * b)).LastVelocity
          = u * a' ∧
        (simulationLoop sqrt Acc Fr Br dt Max true zF zB it (u * a) (l0 + u * b)).LastLocation
          = l0 + u * b' := by
  induction n with
  | zero =>
    intro it a b hn ha hb
    have h : ¬ it < Max := by omega
    rw [simulationLoop_unfold, if_neg h]
    exact ⟨a, b, ha, hb, rfl, rfl⟩
  | succ n ih =>
    intro it a b hn ha hb
    have h : it < Max := by omega
    obtain ⟨c', hc, hc0, _⟩ := brakingStep_scale sqrt Fr Br dt zF zB (u * a)
    have hstep : stepVelocity sqrt Acc Fr Br dt true zF zB (u * a) = u * (a * c') := by
      unfold stepVelocity
      rw [if_pos rfl, hc, mul_mul_vec]
    have ha' : 0 ≤ a * c' := mul_nonneg ha hc0
    have hb' : 0 ≤ b + a * c' * dt := add_nonneg hb (mul_nonneg ha' hdt)
    rw [simulationLoop_unfold, if_pos h, hstep, add_mul_vec]
    split_ifs with hconv
    · exact ⟨a * c', b + a * c' * dt, ha', hb', rfl, rfl⟩
    · exact ih (it + 1) (a * c') (b + a * c' * dt) (by omega) ha' hb'

/-- With a non-negative square root, positive friction and non-negative braking
deceleration, one braking iteration scales the velocity by a factor between 0
and `max 0 (1 - Friction * dt1)`, where `dt1` is the length of the first
sub-step. -/
theorem brakingStep_contract (sqrt : K → K) (hsqrt : ∀ x, 0 ≤ sqrt x) (Fr Br dt : K)
    (zF zB : Bool) (hF : 0 < Fr) (hB : 0 ≤ Br) (hdt : MIN_TICK_TIME ≤ dt) (v : FVector K) :
    ∃ c' : K, brakingStep sqrt Fr Br dt zF zB v = v * c' ∧ 0 ≤ c' ∧
      c' ≤ max 0 (1 - Fr * subStepTime zF dt) := by
  obtain ⟨k, hk, hkneg⟩ := RevAccel_collinear sqrt Br zB v
  have hk0 : k ≤ 0 := hkneg hsqrt hB
  obtain ⟨hd, _⟩ := subStepTime_bounds zF dt hdt
  have hS := SizeSquared_nonneg v
  have hloop : ∃ c' : K, brakingLoop Fr zF (v * k) v dt v = v * c' ∧ 0 ≤ c' ∧
      c' ≤ max 0 (1 - Fr * subStepTime zF dt) := by
    have hv : brakingLoop Fr zF (v * k) v dt v = brakingLoop Fr zF (v * k) v dt (v * (1 : K)) := by
      rw [mul_one_vec]
    rw [hv, brakingLoop_unfold, if_pos hdt, subStep_collinear, dot_mul_self]
    by_cases h2 : (1 + (1 * (-Fr) + k) * subStepTime zF dt) * SizeSquared v ≤ 0
    · rw [if_pos h2]
      exact ⟨0, (mul_zero_vec v).symm, le_refl _, le_max_left _ _⟩
    · have hc1 : 0 < 1 + (1 * (-Fr) + k) * subStepTime zF dt := by
        by_contra h4
        exact h2 (mul_nonpos_of_nonpos_of_nonneg (not_lt.mp h4) hS)
      rw [if_neg h2]
      obtain ⟨c', he, h0, hle⟩ := brakingLoop_scale Fr zF v k _ (dt - subStepTime zF dt)
        (1 + (1 * (-Fr) + k) * subStepTime zF dt) rfl hc1
      refine ⟨c', he, h0, le_trans (hle (le_of_lt hF) hk0) (le_trans ?_ (le_max_right _ _))⟩
      have : k * subStepTime zF dt ≤ 0 := mul_nonpos_of_nonpos_of_nonneg hk0 (le_of_lt hd)
      linarith
  obtain ⟨c', he, h0, hle⟩ := hloop
  unfold brakingStep
  simp only
  rw [hk, he]
  split_ifs
  · exact ⟨0, (mul_zero_vec v).symm, le_refl _, le_max_left _ _⟩
  · exact ⟨c', rfl, h0, hle⟩

omit [FloorRing K] in
/-- A scaling by a factor between 0 and `q <= 1` scales the squared size by at
most `q`. -/
theorem SizeSquared_mul_le (v : FVector K) (c q : K) (h0 : 0 ≤ c) (hq : c ≤ q) (h1 : q ≤ 1) :
    SizeSquared (v * c) ≤ q * SizeSquared v := by
  rw [SizeSquared_mul]
  have hS := SizeSquared_nonneg v
  have hcc : c * c ≤ q := by nlinarith
  exact mul_le_mul_of_nonneg_right hcc hS

/-- A main loop whose iteration shrinks the squared speed by a factor
`q <= 1` is left by `return true` as soon as the budget allows `n + 1` more
iterations, where `q ^ n` brings the squared speed to 1 or below. -/
theorem simulationLoop_converges_of_contract (sqrt : K → K) (Acc : FVector K) (Fr Br dt : K)
    (Max : Int) (zA zF zB : Bool) (q : K) (hq0 : 0 ≤ q) (hq1 : q ≤ 1)
    (hstep : ∀ v : FVector K,
      SizeSquared (stepVelocity sqrt Acc Fr Br dt zA zF zB v) ≤ q * SizeSquared v) (n : Nat) :
    ∀ (it : Int) (v l : FVector K), it + n + 1 ≤ Max → SizeSquared v * q ^ n ≤ 1 →
      (simulationLoop sqrt Acc Fr Br dt Max zA zF zB it v l).ReturnValue = true := by
  induction n with
  | zero =>
    intro it v l hit hv
    have h : it < Max := by omega
    have hS := SizeSquared_nonneg v
    rw [pow_zero, mul_one] at hv
    have hnew : SizeSquared (stepVelocity sqrt Acc Fr Br dt zA zF zB v) ≤ 1 := by
      have := hstep v
      nlinarith
    rw [simulationLoop_unfold, if_pos h, if_pos (Or.inl hnew)]
  | succ n ih =>
    intro it v l hit hv
    have h : it < Max := by omega
    rw [simulationLoop_unfold, if_pos h]
    split_ifs with hconv
    · rfl
    · apply ih (it + 1) _ _ (by push_cast at hit ⊢; omega)
      have h1 := hstep v
      have h2 : 0 ≤ q ^ n := pow_nonneg hq0 n
      calc SizeSquared (stepVelocity sqrt Acc Fr Br dt zA zF zB v) * q ^ n
          ≤ q * SizeSquared v * q ^ n := mul_le_mul_of_nonneg_right h1 h2
        _ = SizeSquared v * q ^ (n + 1) := by rw [pow_succ]; ring
        _ ≤ 1 := hv

omit [FloorRing K] in
/-- One acceleration iteration on a multiple `c` of the flattened acceleration
gives the multiple `c + (1 + g * Friction) * TimeStep`, where `g` is not
negative when the square root is not negative and `c <= 0`. -/
theorem accelerationStep_collinear (sqrt : K → K) (Acc : FVector K) (Fr dt c : K) :
    ∃ g : K, accelerationStep sqrt Acc Fr dt ((⟨Acc.X, Acc.Y, 0⟩ : FVector K) * c)
        = (⟨Acc.X, Acc.Y, 0⟩ : FVector K) * (c + (1 + g * Fr) * dt) ∧
      ((∀ x, 0 ≤ sqrt x) → c ≤ 0 → 0 ≤ g) := by
  obtain ⟨sc, hsc, hpos⟩ := GetSafeNormal_collinear sqrt (⟨Acc.X, Acc.Y, 0⟩ : FVector K)
  refine ⟨sc * Size sqrt ((⟨Acc.X, Acc.Y, 0⟩ : FVector K) * c) - c, ?_, fun hs hc => ?_⟩
  · unfold accelerationStep
    simp only
    rw [hsc]
    ext <;> simp <;> ring
  · have h1 := hpos hs
    have h2 : 0 ≤ Size sqrt ((⟨Acc.X, Acc.Y, 0⟩ : FVector K) * c) := hs _
    nlinarith [mul_nonneg h1 h2]

/-- In acceleration mode, from a velocity `c <= 0` times the flattened
acceleration, the main loop is left by `return true` as soon as the budget
allows `n + 1` more iterations, where `n` time steps cover `-c`. -/
theorem simulationLoop_converges_accelerating (sqrt : K → K) (hsqrt : ∀ x, 0 ≤ sqrt x)
    (Acc : FVector K) (Fr Br dt : K) (Max : Int) (zF zB : Bool) (hF : 0 ≤ Fr) (hdt : 0 ≤ dt)
    (n : Nat) :
    ∀ (it : Int) (c : K) (l : FVector K), it + n + 1 ≤ Max → c ≤ 0 → -c ≤ n * dt →
      (simulationLoop sqrt Acc Fr Br dt Max false zF zB it
        ((⟨Acc.X, Acc.Y, 0⟩ : FVector K) * c) l).ReturnValue = true := by
  induction n with
  | zero =>
    intro it c l hit hc hn
    have h : it < Max := by omega
    have hc0 : c = 0 := by
      rw [Nat.cast_zero, zero_mul] at hn
      linarith
    obtain ⟨g, hg, _⟩ := accelerationStep_collinear sqrt Acc Fr dt c
    have hstep : stepVelocity sqrt Acc Fr Br dt false zF zB ((⟨Acc.X, Acc.Y, 0⟩ : FVector K) * c)
        = (⟨Acc.X, Acc.Y, 0⟩ : FVector K) * (c + (1 + g * Fr) * dt) := by
      unfold stepVelocity
      rw [if_neg (by simp), hg]
    have hdot : dot ((⟨Acc.X, Acc.Y, 0⟩ : FVector K) * (c + (1 + g * Fr) * dt))
        ((⟨Acc.X, Acc.Y, 0⟩ : FVector K) * c) ≤ 0 := by
      rw [dot_mul_mul, hc0]
      simp
    rw [simulationLoop_unfold, if_pos h, hstep, if_pos (Or.inr hdot)]
  | succ n ih =>
    intro it c l hit hc hn
    have h : it < Max := by omega
    obtain ⟨g, hg, hg0⟩ := accelerationStep_collinear sqrt Acc Fr dt c
    have hgpos := hg0 hsqrt hc
    have hstep : stepVelocity sqrt Acc Fr Br dt false zF zB ((⟨Acc.X, Acc.Y, 0⟩ : FVector K) * c)
        = (⟨Acc.X, Acc.Y, 0⟩ : FVector K) * (c + (1 + g * Fr) * dt) := by
      unfold stepVelocity
      rw [if_neg (by simp), hg]
    rw [simulationLoop_unfold, if_pos h, hstep]
    split_ifs with hconv
    · rfl
    · have hS := SizeSquared_nonneg (⟨Acc.X, Acc.Y, 0⟩ : FVector K)
      have hd : ¬ (dot ((⟨Acc.X, Acc.Y, 0⟩ : FVector K) * (c + (1 + g * Fr) * dt))
          ((⟨Acc.X, Acc.Y, 0⟩ : FVector K) * c) ≤ 0) := fun hx => hconv (Or.inr hx)
      rw [dot_mul_mul, not_le] at hd
      have hnew : c + (1 + g * Fr) * dt ≤ 0 := by
        by_contra hpos
        have h1 : (c + (1 + g * Fr) * dt) * c ≤ 0 :=
          mul_nonpos_of_nonneg_of_nonpos (le_of_lt (not_le.mp hpos)) hc
        exact absurd hd (not_lt.mpr (mul_nonpos_of_nonpos_of_nonneg h1 hS))
      apply ih (it + 1) _ _ (by push_cast at hit ⊢; omega) hnew
      have hgF : 0 ≤ g * Fr * dt := mul_nonneg (mul_nonneg hgpos hF) hdt
      push_cast at hn
      linarith

omit [FloorRing K] in
/-- The velocity with which the main loop is entered in acceleration mode is a
multiple of the flattened acceleration, by a factor that is not positive when
the acceleration does not point along the velocity. -/
theorem initial_projection (sqrt : K → K) (Vel Acc : FVector K) :
    ∃ p : K, ({ ProjectOnToNormal Vel (GetSafeNormal sqrt Acc) with Z := 0 } : FVector K)
        = (⟨Acc.X, Acc.Y, 0⟩ : FVector K) * p ∧ (dot Acc Vel ≤ 0 → p ≤ 0) := by
  obtain ⟨sc, hsc, _⟩ := GetSafeNormal_collinear sqrt Acc
  refine ⟨sc * sc * dot Acc Vel, ?_, fun h => ?_⟩
  · rw [hsc]
    unfold ProjectOnToNormal
    ext
    · simp [dot]; ring
    · simp [dot]; ring
    · simp
  · exact mul_nonpos_of_nonneg_of_nonpos (mul_self_nonneg sc) h

end SimulationFacts

/-! ## Properties of the curve -/

section CurveFacts

variable {K : Type} [LinearOrderedField K]

omit [LinearOrderedField K] in
theorem GetValue_natCast (crv : SampledCurve K) (n : Nat) (h : n < crv.length) :
    GetValue crv (n : Int) = some (crv[n]).Value := by
  simp [GetValue, h]

omit [LinearOrderedField K] in
theorem GetTime_natCast (crv : SampledCurve K) (n : Nat) (h : n < crv.length) :
    GetTime crv (n : Int) = some (crv[n]).Time := by
  simp [GetTime, h]

theorem MonotoneValues.le {crv : SampledCurve K} (hm : MonotoneValues crv) {i j : Nat}
    (hij : i ≤ j) (hj : j < crv.length) : (crv[i]).Value ≤ (crv[j]).Value := by
  rcases Nat.eq_or_lt_of_le hij with h | h
  · subst h; exact le_refl _
  · exact (List.pairwise_iff_getElem.mp hm) i j (by omega) hj h

/-- The search loop keeps its bracket: started with
`curve[NextIndex-1].value < target <= curve[NextIndex+Count].value` inside the
buffer it reads only samples of the buffer, ends, and returns an index `r` of
the start range with `curve[r-1].value < target <= curve[r].value`. -/
theorem binarySearch_bracket (crv : SampledCurve K) (x : K) (count : Nat) :
    ∀ (next : Nat), 1 ≤ next → (hb : next + count < crv.length) →
      (crv[next - 1]).Value < x → x ≤ (crv[next + count]).Value →
      ∃ (r : Nat) (hr : r < crv.length),
        binarySearch crv x (next : Int) (count : Int) = some (r : Int) ∧
        next ≤ r ∧ r ≤ next + count ∧ (crv[r - 1]).Value < x ∧ x ≤ (crv[r]).Value := by
  induction count using Nat.strong_induction_on with
  | _ count ih =>
    intro next h1 hb hlo hhi
    rw [binarySearch]
    by_cases hc : (count : Int) > 0
    · have hcpos : 0 < count := by omega
      have hmid : ((next : Int) + (count : Int) / 2) = ((next + count / 2 : Nat) : Int) := by
        omega
      have hmidlt : next + count / 2 < crv.length := by omega
      simp only [hc, if_true, hmid, GetValue_natCast crv _ hmidlt]
      by_cases hgt : x > (crv[next + count / 2]).Value
      · simp only [hgt, if_true]
        have e1 : ((next + count / 2 : Nat) : Int) + 1 = ((next + count / 2 + 1 : Nat) : Int) := by
          omega
        have e2 : (count : Int) - ((count : Int) / 2 + 1)
            = ((count - (count / 2 + 1) : Nat) : Int) := by omega
        rw [e1, e2]
        have hsum : next + count / 2 + 1 + (count - (count / 2 + 1)) = next + count := by omega
        obtain ⟨r, hr, hres, hr1, hr2, hr3, hr4⟩ :=
          ih (count - (count / 2 + 1)) (by omega) (next + count / 2 + 1) (by omega)
            (by omega) (by simpa using hgt) (by simpa [hsum] using hhi)
        exact ⟨r, hr, hres, by omega, by omega, hr3, hr4⟩
      · simp only [hgt, if_false]
        have e2 : (count : Int) / 2 = ((count / 2 : Nat) : Int) := by omega
        rw [e2]
        obtain ⟨r, hr, hres, hr1, hr2, hr3, hr4⟩ :=
          ih (count / 2) (by omega) next h1 (by omega) hlo (le_of_not_lt hgt)
        exact ⟨r, hr, hres, hr1, by omega, hr3, hr4⟩
    · have hz : count = 0 := by omega
      subst hz
      simp only [hc, if_false]
      exact ⟨next, by omega, rfl, le_refl _, by omega, hlo, by simpa using hhi⟩

/-- Interior lookup, monotone or not: for a target strictly between the first
and the last value the function reads only samples of the buffer and
interpolates between two neighbours `next-1`, `next` that bracket the target. -/
theorem GetCurveTime_interior (crv : SampledCurve K) (x : K) (hlen : 2 ≤ crv.length)
    (hlo : (crv[0]).Value < x) (hhi : x < (crv[crv.length - 1]).Value) :
    ∃ (next : Nat) (_ : 1 ≤ next) (_ : next < crv.length),
      (crv[next - 1]).Value < x ∧ x ≤ (crv[next]).Value ∧
      GetCurveTime crv x = some (Lerp (crv[next - 1]).Time (crv[next]).Time
        (if IsNearlyZero ((crv[next]).Value - (crv[next - 1]).Value) = true then 0
         else (x - (crv[next - 1]).Value) / ((crv[next]).Value - (crv[next - 1]).Value))) := by
  have hsum : 1 + (crv.length - 2) = crv.length - 1 := by omega
  obtain ⟨r, hr, hres, hr1, hr2, hr3, hr4⟩ :=
    binarySearch_bracket crv x (crv.length - 2) 1 (le_refl _) (by omega)
      (by simpa using hlo) (by simpa [hsum] using le_of_lt hhi)
  refine ⟨r, hr1, hr, hr3, hr4, ?_⟩
  have hlast : (GetNumSamples crv - 1 : Int) = ((crv.length - 1 : Nat) : Int) := by
    unfold GetNumSamples; omega
  have hcount : (((crv.length - 1 : Nat) : Int) - 1) = ((crv.length - 2 : Nat) : Int) := by
    omega
  have hprev : ((r : Int) - 1) = ((r - 1 : Nat) : Int) := by omega
  have hnot : ¬ (GetNumSamples crv < 2) := by unfold GetNumSamples; omega
  have h0 : GetValue crv 0 = some (crv[0]).Value := by
    exact_mod_cast GetValue_natCast crv 0 (by omega)
  have hres1 : binarySearch crv x 1 ((crv.length - 2 : Nat) : Int) = some (r : Int) := by
    exact_mod_cast hres
  unfold GetCurveTime
  simp only [hnot, if_false, h0, hlast, not_le.mpr hlo,
    GetValue_natCast crv (crv.length - 1) (by omega), ge_iff_le, not_le.mpr hhi, hcount, hres1,
    hprev, GetValue_natCast crv (r - 1) (by omega), GetValue_natCast crv r hr,
    GetTime_natCast crv (r - 1) (by omega), GetTime_natCast crv r hr]
  by_cases hz : IsNearlyZero ((crv[r]).Value - (crv[r - 1]).Value) = true
  · simp [hz]
  · simp [hz]

/-- The first exit of `GetCurveTime`: a target at most the first value gives
the first time. -/
theorem GetCurveTime_of_le_first (crv : SampledCurve K) (x : K) (hlen : 2 ≤ crv.length)
    (hx : x ≤ (crv[0]).Value) : GetCurveTime crv x = some (crv[0]).Time := by
  have hnot : ¬ (GetNumSamples crv < 2) := by unfold GetNumSamples; omega
  have h0 : GetValue crv 0 = some (crv[0]).Value := by
    exact_mod_cast GetValue_natCast crv 0 (by omega)
  have t0 : GetTime crv 0 = some (crv[0]).Time := by
    exact_mod_cast GetTime_natCast crv 0 (by omega)
  unfold GetCurveTime
  simp only [hnot, if_false, h0, hx, if_true, t0]

/-- The second exit of `GetCurveTime`: a target above the first value and at
least the last value gives the last time. -/
theorem GetCurveTime_of_ge_last (crv : SampledCurve K) (x : K) (hlen : 2 ≤ crv.length)
    (hfirst : (crv[0]).Value < x) (hlast : (crv[crv.length - 1]).Value ≤ x) :
    GetCurveTime crv x = some (crv[crv.length - 1]).Time := by
  have hnot : ¬ (GetNumSamples crv < 2) := by unfold GetNumSamples; omega
  have h0 : GetValue crv 0 = some (crv[0]).Value := by
    exact_mod_cast GetValue_natCast crv 0 (by omega)
  have hidx : (GetNumSamples crv - 1 : Int) = ((crv.length - 1 : Nat) : Int) := by
    unfold GetNumSamples; omega
  unfold GetCurveTime
  simp only [hnot, if_false, h0, not_le.mpr hfirst, hidx,
    GetValue_natCast crv (crv.length - 1) (by omega), ge_iff_le, hlast, if_true,
    GetTime_natCast crv (crv.length - 1) (by omega)]

theorem MonotoneTimes.le_time {crv : SampledCurve K} (hm : MonotoneTimes crv) {i j : Nat}
    (hij : i ≤ j) (hj : j < crv.length) : (crv[i]).Time ≤ (crv[j]).Time := by
  rcases Nat.eq_or_lt_of_le hij with h | h
  · subst h; exact le_refl _
  · exact (List.pairwise_iff_getElem.mp hm) i j (by omega) hj h

/-- The interpolation factor of a bracketing pair lies in `[0, 1]`. -/
theorem alpha_mem (pv nv x : K) (h1 : pv < x) (h2 : x ≤ nv) :
    0 ≤ (if IsNearlyZero (nv - pv) = true then 0 else (x - pv) / (nv - pv)) ∧
    (if IsNearlyZero (nv - pv) = true then 0 else (x - pv) / (nv - pv)) ≤ 1 := by
  have hd : 0 < nv - pv := by linarith
  split_ifs
  · exact ⟨le_refl _, zero_le_one⟩
  · constructor
    · exact div_nonneg (by linarith) (le_of_lt hd)
    · rw [div_le_one hd]; linarith

/-- A linear interpolation with a factor in `[0, 1]` lies between its ends. -/
theorem Lerp_between (tp tn al : K) (h0 : 0 ≤ al) (h1 : al ≤ 1) :
    min tp tn ≤ Lerp tp tn al ∧ Lerp tp tn al ≤ max tp tn := by
  unfold Lerp
  rcases le_total tp tn with h | h
  · rw [min_eq_left h, max_eq_right h]
    constructor
    · nlinarith [mul_nonneg h0 (sub_nonneg.mpr h)]
    · nlinarith [mul_nonneg (sub_nonneg.mpr h1) (sub_nonneg.mpr h)]
  · rw [min_eq_right h, max_eq_left h]
    constructor
    · nlinarith [mul_nonneg (sub_nonneg.mpr h1) (sub_nonneg.mpr h)]
    · nlinarith [mul_nonneg h0 (sub_nonneg.mpr h)]

/-- A linear interpolation with a factor in `[0, 1]` between sorted ends lies
between them. -/
theorem Lerp_sorted (tp tn al : K) (h : tp ≤ tn) (h0 : 0 ≤ al) (h1 : al ≤ 1) :
    tp ≤ Lerp tp tn al ∧ Lerp tp tn al ≤ tn := by
  unfold Lerp
  constructor
  · nlinarith [mul_nonneg h0 (sub_nonneg.mpr h)]
  · nlinarith [mul_nonneg (sub_nonneg.mpr h1) (sub_nonneg.mpr h)]

/-- With sorted times every result lies between the first and the last time,
and no input makes the function fault. -/
theorem GetCurveTime_range (crv : SampledCurve K) (x : K) (hlen : 2 ≤ crv.length)
    (ht : MonotoneTimes crv) :
    ∃ t, GetCurveTime crv x = some t ∧ (crv[0]).Time ≤ t ∧
      t ≤ (crv[crv.length - 1]).Time := by
  have hends : (crv[0]).Time ≤ (crv[crv.length - 1]).Time := ht.le_time (Nat.zero_le _) (by omega)
  rcases le_or_lt x (crv[0]).Value with h0 | h0
  · exact ⟨_, GetCurveTime_of_le_first crv x hlen h0, le_refl _, hends⟩
  rcases le_or_lt (crv[crv.length - 1]).Value x with h1 | h1
  · exact ⟨_, GetCurveTime_of_ge_last crv x hlen h0 h1, hends, le_refl _⟩
  obtain ⟨r, hr1, hr, hr3, hr4, hres⟩ := GetCurveTime_interior crv x hlen h0 h1
  obtain ⟨ha0, ha1⟩ := alpha_mem _ _ x hr3 hr4
  have hpn : (crv[r - 1]).Time ≤ (crv[r]).Time := ht.le_time (by omega) hr
  obtain ⟨hb0, hb1⟩ := Lerp_sorted (crv[r - 1]).Time (crv[r]).Time _ hpn ha0 ha1
  exact ⟨_, hres, le_trans (ht.le_time (Nat.zero_le _) (by omega)) hb0,
    le_trans hb1 (ht.le_time (by omega) (by omega))⟩

/-- Two targets strictly inside the value range of a curve with monotone values
and sorted times: the smaller target gets the smaller time. -/
theorem GetCurveTime_interior_mono (crv : SampledCurve K) (hlen : 2 ≤ crv.length)
    (hv : MonotoneValues crv) (ht : MonotoneTimes crv) (a b : K) (hab : a ≤ b)
    (h2 : (crv[0]).Value < a) (h1 : b < (crv[crv.length - 1]).Value) (ta tb : K)
    (hta : GetCurveTime crv a = some ta) (htb : GetCurveTime crv b = some tb) : ta ≤ tb := by
  have h0 : (crv[0]).Value < b := lt_of_lt_of_le h2 hab
  have h3 : a < (crv[crv.length - 1]).Value := lt_of_le_of_lt hab h1
  obtain ⟨r, hr1, hr, hr3, hr4, hra⟩ := GetCurveTime_interior crv a hlen h2 h3
  obtain ⟨s, hs1, hs, hs3, hs4, hsb⟩ := GetCurveTime_interior crv b hlen h0 h1
  rw [hta] at hra
  rw [htb] at hsb
  rw [Option.some.inj hra, Option.some.inj hsb]
  obtain ⟨hal0, hal1⟩ := alpha_mem _ _ a hr3 hr4
  obtain ⟨hbe0, hbe1⟩ := alpha_mem _ _ b hs3 hs4
  have hrs : r ≤ s := by
    by_contra hlt
    have h5 : (crv[s]).Value ≤ (crv[r - 1]).Value := hv.le (by omega) (by omega)
    exact absurd (lt_of_lt_of_le hr3 (le_trans hab (le_trans hs4 h5))) (lt_irrefl _)
  rcases Nat.eq_or_lt_of_le hrs with heq | hlt
  · subst heq
    have hpn : (crv[r - 1]).Time ≤ (crv[r]).Time := ht.le_time (by omega) hr
    have hd : 0 < (crv[r]).Value - (crv[r - 1]).Value := by linarith
    have hal : (if IsNearlyZero ((crv[r]).Value - (crv[r - 1]).Value) = true then 0
          else (a - (crv[r - 1]).Value) / ((crv[r]).Value - (crv[r - 1]).Value))
        ≤ (if IsNearlyZero ((crv[r]).Value - (crv[r - 1]).Value) = true then 0
          else (b - (crv[r - 1]).Value) / ((crv[r]).Value - (crv[r - 1]).Value)) := by
      split_ifs
      · exact le_refl _
      · exact div_le_div_of_nonneg_right (by linarith) (le_of_lt hd)
    unfold Lerp
    exact add_le_add_left (mul_le_mul_of_nonneg_right hal (sub_nonneg.mpr hpn)) _
  · have hpr : (crv[r - 1]).Time ≤ (crv[r]).Time := ht.le_time (by omega) hr
    have hps : (crv[s - 1]).Time ≤ (crv[s]).Time := ht.le_time (by omega) hs
    have hmid : (crv[r]).Time ≤ (crv[s - 1]).Time := ht.le_time (by omega) (by omega)
    obtain ⟨_, hra1⟩ := Lerp_sorted (crv[r - 1]).Time (crv[r]).Time _ hpr hal0 hal1
    obtain ⟨hsb0, _⟩ := Lerp_sorted (crv[s - 1]).Time (crv[s]).Time _ hps hbe0 hbe1
    exact le_trans hra1 (le_trans hmid hsb0)

end CurveFacts

/-! ## Claims about `GetCurveTime` -/

section CurveClaims

variable {K : Type} [LinearOrderedField K]

/-- C3 (lower clamp): for every curve with at least 2 samples, monotone or
not, and every target value at most the first sample's value, `GetCurveTime`
returns exactly the first sample's time. -/
theorem lower_clamp (crv : SampledCurve K) (x : K) (hlen : 2 ≤ crv.length)
    (hx : x ≤ (crv[0]).Value) : GetCurveTime crv x = some (crv[0]).Time :=
  GetCurveTime_of_le_first crv x hlen hx

/-- Witness of C3: the curve (0,5),(1,7), which has two samples, and the
target 4, which is below the first value 5: the result is the first time 0. -/
theorem lower_clamp_witness :
    2 ≤ ([⟨0, 5⟩, ⟨1, 7⟩] : SampledCurve ℚ).length ∧ (4 : ℚ) ≤ 5 ∧
      GetCurveTime ([⟨0, 5⟩, ⟨1, 7⟩] : SampledCurve ℚ) 4 = some 0 :=
  ⟨by decide, by norm_num,
    lower_clamp ([⟨0, 5⟩, ⟨1, 7⟩] : SampledCurve ℚ) 4 (by decide) (by norm_num)⟩

/-- C4 (degenerate curve): for every curve with 0 or 1 samples and every
target value, `GetCurveTime` returns the fallback 0 and does not fault; the
result does not depend on the samples. -/
theorem degenerate_curve (crv : SampledCurve K) (x : K) (hlen : crv.length ≤ 1) :
    GetCurveTime crv x = some 0 := by
  have h : GetNumSamples crv < 2 := by unfold GetNumSamples; omega
  unfold GetCurveTime
  simp only [h, if_true]

/-- Witness of C4: the one-sample curve (3,7) and the target 7. -/
theorem degenerate_curve_witness :
    ([⟨3, 7⟩] : SampledCurve ℚ).length ≤ 1 ∧
      GetCurveTime ([⟨3, 7⟩] : SampledCurve ℚ) 7 = some 0 :=
  ⟨by decide, degenerate_curve ([⟨3, 7⟩] : SampledCurve ℚ) 7 (by decide)⟩

/-- C2 as stated fails: on the constant curve (0,5),(1,5), which is monotone,
the target 5 is at least the last value, yet the first exit wins and the
result is the first time 0, not the last time 1. -/
theorem upper_clamp_counterexample :
    2 ≤ ([⟨0, 5⟩, ⟨1, 5⟩] : SampledCurve ℚ).length ∧
      MonotoneValues ([⟨0, 5⟩, ⟨1, 5⟩] : SampledCurve ℚ) ∧
      (([⟨0, 5⟩, ⟨1, 5⟩] : SampledCurve ℚ)[1]).Value ≤ 5 ∧
      GetCurveTime ([⟨0, 5⟩, ⟨1, 5⟩] : SampledCurve ℚ) 5 = some 0 ∧
      GetCurveTime ([⟨0, 5⟩, ⟨1, 5⟩] : SampledCurve ℚ) 5
        ≠ some (([⟨0, 5⟩, ⟨1, 5⟩] : SampledCurve ℚ)[1]).Time := by
  have h : GetCurveTime ([⟨0, 5⟩, ⟨1, 5⟩] : SampledCurve ℚ) 5 = some 0 := by
    simp [GetCurveTime, GetNumSamples, GetValue, GetTime]
  refine ⟨by decide, ?_, ?_, h, ?_⟩
  · simp [MonotoneValues]
  · simp
  · rw [h]; simp

/-- C2 (upper clamp), amended: for every curve with at least 2 samples,
monotone or not, and every target value that is at least the last sample's
value and strictly above the first sample's value, `GetCurveTime` returns
exactly the last sample's time. -/
theorem upper_clamp (crv : SampledCurve K) (x : K) (hlen : 2 ≤ crv.length)
    (hfirst : (crv[0]).Value < x) (hlast : (crv[crv.length - 1]).Value ≤ x) :
    GetCurveTime crv x = some (crv[crv.length - 1]).Time :=
  GetCurveTime_of_ge_last crv x hlen hfirst hlast

/-- Witness of C2 amended: the curve (0,5),(1,7) and the target 9. -/
theorem upper_clamp_witness :
    2 ≤ ([⟨0, 5⟩, ⟨1, 7⟩] : SampledCurve ℚ).length ∧ (5 : ℚ) < 9 ∧ (7 : ℚ) ≤ 9 ∧
      GetCurveTime ([⟨0, 5⟩, ⟨1, 7⟩] : SampledCurve ℚ) 9 = some 1 :=
  ⟨by decide, by norm_num, by norm_num,
    upper_clamp ([⟨0, 5⟩, ⟨1, 7⟩] : SampledCurve ℚ) 9 (by decide) (by norm_num) (by norm_num)⟩

/-- Why the amended C1 asks for a gap above the tolerance: on the strictly
increasing curve (0,0),(1,1/10^9),(2,1) the lookup of the value of sample 1
takes the `IsNearlyZero` branch and returns time 0, not time 1. -/
theorem round_trip_small_gap :
    GetCurveTime ([⟨0, 0⟩, ⟨1, 1 / 1000000000⟩, ⟨2, 1⟩] : SampledCurve ℚ) (1 / 1000000000)
      = some 0 := by
  simp [GetCurveTime, GetNumSamples, GetValue, GetTime, binarySearch, IsNearlyZero, Lerp,
    SMALL_NUMBER]
  rw [abs_of_pos (by norm_num)]
  norm_num

/-- C5 (interior lookup): for every curve with at least 2 samples whose values
never decrease and every target strictly between the first and the last value,
`GetCurveTime` returns `prevTime + alpha * (nextTime - prevTime)` where `next`
is the smallest index whose value is at least the target, `prev = next - 1`,
and `alpha = (target - prevValue) / (nextValue - prevValue)`, or `alpha = 0`
when that difference is within `SMALL_NUMBER` of zero; the pair satisfies
`curve[prev].value <= target <= curve[next].value`. -/
theorem interior_lookup (crv : SampledCurve K) (x : K) (hlen : 2 ≤ crv.length)
    (hm : MonotoneValues crv) (hlo : (crv[0]).Value < x)
    (hhi : x < (crv[crv.length - 1]).Value) :
    ∃ (next : Nat) (_ : 1 ≤ next) (_ : next < crv.length),
      (x ≤ (crv[next]).Value ∧
        ∀ (j : Nat) (hj : j < crv.length), x ≤ (crv[j]).Value → next ≤ j) ∧
      (crv[next - 1]).Value ≤ x ∧ x ≤ (crv[next]).Value ∧
      GetCurveTime crv x = some ((crv[next - 1]).Time +
        (if |(crv[next]).Value - (crv[next - 1]).Value| ≤ SMALL_NUMBER then 0
         else (x - (crv[next - 1]).Value) / ((crv[next]).Value - (crv[next - 1]).Value))
        * ((crv[next]).Time - (crv[next - 1]).Time)) := by
  obtain ⟨r, hr1, hr, hr3, hr4, hres⟩ := GetCurveTime_interior crv x hlen hlo hhi
  refine ⟨r, hr1, hr, ⟨hr4, ?_⟩, le_of_lt hr3, hr4, ?_⟩
  · intro j hj hxj
    by_contra hlt
    have h5 : (crv[j]).Value ≤ (crv[r - 1]).Value := hm.le (by omega) (by omega)
    exact absurd (lt_of_le_of_lt (le_trans hxj h5) hr3) (lt_irrefl _)
  · rw [hres]
    simp only [Lerp, IsNearlyZero, decide_eq_true_eq]

/-- Witness of C5, the spec's example: on the monotone curve
(0,0),(1,10),(2,10),(3,20) the target 15 gives the time 5/2, strictly between
2 and 3. -/
theorem interior_lookup_witness :
    MonotoneValues ([⟨0, 0⟩, ⟨1, 10⟩, ⟨2, 10⟩, ⟨3, 20⟩] : SampledCurve ℚ) ∧
      GetCurveTime ([⟨0, 0⟩, ⟨1, 10⟩, ⟨2, 10⟩, ⟨3, 20⟩] : SampledCurve ℚ) 15 = some (5 / 2) ∧
      (2 : ℚ) < 5 / 2 ∧ (5 / 2 : ℚ) < 3 := by
  have hm : MonotoneValues ([⟨0, 0⟩, ⟨1, 10⟩, ⟨2, 10⟩, ⟨3, 20⟩] : SampledCurve ℚ) := by
    simp [MonotoneValues]; norm_num
  refine ⟨hm, ?_, by norm_num, by norm_num⟩
  obtain ⟨next, h1, hn, ⟨hge, _⟩, _, _, hres⟩ :=
    interior_lookup ([⟨0, 0⟩, ⟨1, 10⟩, ⟨2, 10⟩, ⟨3, 20⟩] : SampledCurve ℚ) 15 (by decide) hm
      (by norm_num) (by simp; norm_num)
  rw [hres]
  have hn4 : next < 4 := hn
  interval_cases next
  · norm_num at hge
  · norm_num at hge
  · norm_num [SMALL_NUMBER, abs_of_pos]

/-- C17, amended (bracketing without monotonicity, in exact arithmetic): when
the code is run without rounding, for every curve with at least 2
samples, its values in any order, and every target strictly between the first
and the last value, `GetCurveTime` reads only samples of the buffer (it returns
a value, not a fault), the selected pair is `next = prev + 1` with
`curve[prev].value < target <= curve[next].value`, the interpolation factor
lies in `[0, 1]` and the result lies between the two times of the pair. -/
theorem bracketing_any_order (crv : SampledCurve K) (x : K) (hlen : 2 ≤ crv.length)
    (hlo : (crv[0]).Value < x) (hhi : x < (crv[crv.length - 1]).Value) :
    ∃ (prev next : Nat) (_ : next = prev + 1) (_ : next < crv.length) (alpha t : K),
      (crv[prev]).Value < x ∧ x ≤ (crv[next]).Value ∧
      alpha = (if |(crv[next]).Value - (crv[prev]).Value| ≤ SMALL_NUMBER then 0
        else (x - (crv[prev]).Value) / ((crv[next]).Value - (crv[prev]).Value)) ∧
      0 ≤ alpha ∧ alpha ≤ 1 ∧
      GetCurveTime crv x = some t ∧
      t = (crv[prev]).Time + alpha * ((crv[next]).Time - (crv[prev]).Time) ∧
      min (crv[prev]).Time (crv[next]).Time ≤ t ∧
      t ≤ max (crv[prev]).Time (crv[next]).Time := by
  obtain ⟨r, hr1, hr, hr3, hr4, hres⟩ := GetCurveTime_interior crv x hlen hlo hhi
  obtain ⟨ha0, ha1⟩ := alpha_mem _ _ x hr3 hr4
  obtain ⟨hb0, hb1⟩ := Lerp_between (crv[r - 1]).Time (crv[r]).Time _ ha0 ha1
  refine ⟨r - 1, r, by omega, hr, _, _, hr3, hr4, ?_, ha0, ha1, hres, rfl, hb0, hb1⟩
  simp only [IsNearlyZero, decide_eq_true_eq]

/-- Witness of C17: the curve (0,0),(1,30),(2,10),(3,20), whose values are not
monotone, and the target 15. -/
theorem bracketing_any_order_witness :
    ∃ (prev next : Nat) (t : ℚ), next = prev + 1 ∧ next < 4 ∧
      GetCurveTime ([⟨0, 0⟩, ⟨1, 30⟩, ⟨2, 10⟩, ⟨3, 20⟩] : SampledCurve ℚ) 15 = some t := by
  obtain ⟨prev, next, hp, hn, _, t, _, _, _, _, _, hres, _⟩ :=
    bracketing_any_order ([⟨0, 0⟩, ⟨1, 30⟩, ⟨2, 10⟩, ⟨3, 20⟩] : SampledCurve ℚ) 15 (by decide)
      (by norm_num) (by simp; norm_num)
  exact ⟨prev, next, t, hp, hn, hres⟩

/-- C18, amended (monotone in the target, in exact arithmetic): when the code
is run without rounding, for every curve with at least 2 samples
whose values and times both never decrease, and all targets `a <= b`, the
result for `a` is at most the result for `b`; and every result lies between
the first and the last time. -/
theorem monotone_in_target (crv : SampledCurve K) (hlen : 2 ≤ crv.length)
    (hv : MonotoneValues crv) (ht : MonotoneTimes crv) (a b : K) (hab : a ≤ b) :
    ∃ ta tb : K, GetCurveTime crv a = some ta ∧ GetCurveTime crv b = some tb ∧ ta ≤ tb ∧
      (crv[0]).Time ≤ ta ∧ ta ≤ (crv[crv.length - 1]).Time ∧
      (crv[0]).Time ≤ tb ∧ tb ≤ (crv[crv.length - 1]).Time := by
  obtain ⟨ta, hta, ha0, ha1⟩ := GetCurveTime_range crv a hlen ht
  obtain ⟨tb, htb, hb0, hb1⟩ := GetCurveTime_range crv b hlen ht
  refine ⟨ta, tb, hta, htb, ?_, ha0, ha1, hb0, hb1⟩
  rcases le_or_lt b (crv[0]).Value with h0 | h0
  · have e1 := GetCurveTime_of_le_first crv a hlen (le_trans hab h0)
    have e2 := GetCurveTime_of_le_first crv b hlen h0
    rw [hta] at e1
    rw [htb] at e2
    rw [Option.some.inj e1, Option.some.inj e2]
  rcases le_or_lt (crv[crv.length - 1]).Value b with h1 | h1
  · have e2 := GetCurveTime_of_ge_last crv b hlen h0 h1
    rw [htb] at e2
    rw [Option.some.inj e2]
    exact ha1
  rcases le_or_lt a (crv[0]).Value with h2 | h2
  · have e1 := GetCurveTime_of_le_first crv a hlen h2
    rw [hta] at e1
    rw [Option.some.inj e1]
    exact hb0
  exact GetCurveTime_interior_mono crv hlen hv ht a b hab h2 h1 ta tb hta htb

/-- Witness of C18: the curve (0,0),(1,10),(2,10),(3,20) and the targets 5 and
15. -/
theorem monotone_in_target_witness :
    MonotoneValues ([⟨0, 0⟩, ⟨1, 10⟩, ⟨2, 10⟩, ⟨3, 20⟩] : SampledCurve ℚ) ∧
      MonotoneTimes ([⟨0, 0⟩, ⟨1, 10⟩, ⟨2, 10⟩, ⟨3, 20⟩] : SampledCurve ℚ) ∧
      ∃ ta tb : ℚ,
        GetCurveTime ([⟨0, 0⟩, ⟨1, 10⟩, ⟨2, 10⟩, ⟨3, 20⟩] : SampledCurve ℚ) 5 = some ta ∧
        GetCurveTime ([⟨0, 0⟩, ⟨1, 10⟩, ⟨2, 10⟩, ⟨3, 20⟩] : SampledCurve ℚ) 15 = some tb ∧
        ta ≤ tb := by
  have hv : MonotoneValues ([⟨0, 0⟩, ⟨1, 10⟩, ⟨2, 10⟩, ⟨3, 20⟩] : SampledCurve ℚ) := by
    simp [MonotoneValues]; norm_num
  have ht : MonotoneTimes ([⟨0, 0⟩, ⟨1, 10⟩, ⟨2, 10⟩, ⟨3, 20⟩] : SampledCurve ℚ) := by
    simp [MonotoneTimes]; norm_num
  obtain ⟨ta, tb, h1, h2, h3, _⟩ :=
    monotone_in_target ([⟨0, 0⟩, ⟨1, 10⟩, ⟨2, 10⟩, ⟨3, 20⟩] : SampledCurve ℚ) (by decide) hv ht
      5 15 (by norm_num)
  exact ⟨hv, ht, ta, tb, h1, h2, h3⟩

end CurveClaims



/-! ## Claims about `PredictStopLocation` -/

section PredictClaims

open FVector

variable {K : Type} [LinearOrderedField K] [FloorRing K]

/-- C6 (accelerating motion is never predicted): whenever the acceleration and
the velocity have a strictly positive dot product, `PredictStopLocation`
returns `false` and leaves `OutStopLocation` untouched, for every friction,
braking deceleration, time step and iteration budget. -/
theorem accelerating_not_predicted (sqrt : K → K) (Out Cur Vel Acc : FVector K)
    (Fr Br dt : K) (Max : Int) (h : 0 < dot Acc Vel) :
    PredictStopLocation sqrt Out Cur Vel Acc Fr Br dt Max = (false, Out) := by
  apply PredictStopLocation_of_none
  unfold runSimulation
  by_cases h1 : dt < MIN_TICK_TIME
  · rw [if_pos h1]
  · rw [if_neg h1]
    simp only [gt_iff_lt, h, if_true]

/-- Witness of C6: acceleration (1,0,0) along the velocity (3,0,0), friction 2,
braking 5, time step 1/60 and a budget of 1000 iterations.  The function
returns before any square root is taken, so the identity stands in for it. -/
theorem accelerating_not_predicted_witness :
    (0 : ℚ) < dot (⟨1, 0, 0⟩ : FVector ℚ) ⟨3, 0, 0⟩ ∧
      PredictStopLocation (fun q : ℚ => q) ⟨7, 7, 7⟩ ⟨0, 0, 0⟩ ⟨3, 0, 0⟩ ⟨1, 0, 0⟩ 2 5 (1 / 60)
        1000 = (false, ⟨7, 7, 7⟩) :=
  ⟨by norm_num [dot],
    accelerating_not_predicted (fun q : ℚ => q) ⟨7, 7, 7⟩ ⟨0, 0, 0⟩ ⟨3, 0, 0⟩ ⟨1, 0, 0⟩ 2 5
      (1 / 60) 1000 (by norm_num [dot])⟩

/-- C7 (no stopping mechanism): with the acceleration exactly zero and a
friction that is zero or negative, `PredictStopLocation` returns `false` and
leaves `OutStopLocation` untouched, for every velocity, braking deceleration,
time step and iteration budget. -/
theorem no_stopping_mechanism (sqrt : K → K) (Out Cur Vel : FVector K)
    (Fr Br dt : K) (Max : Int) (hF : Fr ≤ 0) :
    PredictStopLocation sqrt Out Cur Vel ZeroVector Fr Br dt Max = (false, Out) := by
  apply PredictStopLocation_of_none
  unfold runSimulation
  by_cases h1 : dt < MIN_TICK_TIME
  · rw [if_pos h1]
  · rw [if_neg h1]
    simp only [dot_ZeroVector_left, gt_iff_lt, lt_irrefl, if_false, IsZero_ZeroVector,
      max_eq_right hF, decide_True, and_self, if_true]

/-- Witness of C7, the spec's test case: zero acceleration, zero friction and
zero braking deceleration, with velocity (500,0,0). -/
theorem no_stopping_mechanism_witness :
    (0 : ℚ) ≤ 0 ∧
      PredictStopLocation (fun q : ℚ => q) ⟨7, 7, 7⟩ ⟨0, 0, 0⟩ ⟨500, 0, 0⟩ ZeroVector 0 0
        (1 / 60) 1000 = (false, ⟨7, 7, 7⟩) :=
  ⟨le_refl _,
    no_stopping_mechanism (fun q : ℚ => q) ⟨7, 7, 7⟩ ⟨0, 0, 0⟩ ⟨500, 0, 0⟩ 0 0 (1 / 60) 1000
      (le_refl _)⟩

/-- C8 (parameter clamping): with all other inputs fixed, a negative friction
gives the same returned `bool` and `OutStopLocation` as friction 0, and a
negative braking deceleration gives the same result as braking deceleration
0. -/
theorem parameter_clamping (sqrt : K → K) (Out Cur Vel Acc : FVector K)
    (Fr Br dt : K) (Max : Int) :
    (Fr < 0 → PredictStopLocation sqrt Out Cur Vel Acc Fr Br dt Max
      = PredictStopLocation sqrt Out Cur Vel Acc 0 Br dt Max) ∧
    (Br < 0 → PredictStopLocation sqrt Out Cur Vel Acc Fr Br dt Max
      = PredictStopLocation sqrt Out Cur Vel Acc Fr 0 dt Max) := by
  constructor
  · intro h
    unfold PredictStopLocation runSimulation
    rw [max_eq_right (le_of_lt h), max_self]
  · intro h
    unfold PredictStopLocation runSimulation
    rw [max_eq_right (le_of_lt h), max_self]

/-- Witness of C8: friction -3 against friction 0, and braking deceleration -4
against braking deceleration 0, with velocity (500,0,0) and zero
acceleration. -/
theorem parameter_clamping_witness :
    PredictStopLocation (fun q : ℚ => q) ⟨7, 7, 7⟩ ⟨0, 0, 0⟩ ⟨500, 0, 0⟩ ZeroVector (-3) 5
        (1 / 60) 1000
      = PredictStopLocation (fun q : ℚ => q) ⟨7, 7, 7⟩ ⟨0, 0, 0⟩ ⟨500, 0, 0⟩ ZeroVector 0 5
        (1 / 60) 1000 ∧
    PredictStopLocation (fun q : ℚ => q) ⟨7, 7, 7⟩ ⟨0, 0, 0⟩ ⟨500, 0, 0⟩ ZeroVector 2 (-4)
        (1 / 60) 1000
      = PredictStopLocation (fun q : ℚ => q) ⟨7, 7, 7⟩ ⟨0, 0, 0⟩ ⟨500, 0, 0⟩ ZeroVector 2 0
        (1 / 60) 1000 :=
  ⟨(parameter_clamping (fun q : ℚ => q) ⟨7, 7, 7⟩ ⟨0, 0, 0⟩ ⟨500, 0, 0⟩ ZeroVector (-3) 5
      (1 / 60) 1000).1 (by norm_num),
    (parameter_clamping (fun q : ℚ => q) ⟨7, 7, 7⟩ ⟨0, 0, 0⟩ ⟨500, 0, 0⟩ ZeroVector 2 (-4)
      (1 / 60) 1000).2 (by norm_num)⟩

/-- C10 (iteration budget): for all inputs, (1) the main loop runs at most
`MaxSimulationIterations` times; (2) with a budget of 0 or less the function
returns `false`; (3) if it returns `true` with location `L` under a budget `N`,
it returns `true` with the same `L` under every budget `M >= N`; (4) if under
some budget the loop is left by `return true` in iteration `k`, every budget
`N < k` returns `false`; and (5) the friction-only scenario (zero acceleration,
friction 2, velocity (500,0,0), time step 1/60) returns `false` under the
budget 1. -/
theorem iteration_budget (sqrt : K → K) (Out Cur Vel Acc : FVector K) (Fr Br dt : K) :
    (∀ (Max : Int) (e : LoopExit K), runSimulation sqrt Cur Vel Acc Fr Br dt Max = some e →
      0 ≤ e.Iterations ∧ e.Iterations ≤ max Max 0) ∧
    (∀ Max : Int, Max ≤ 0 →
      PredictStopLocation sqrt Out Cur Vel Acc Fr Br dt Max = (false, Out)) ∧
    (∀ (N M : Int) (L : FVector K),
      PredictStopLocation sqrt Out Cur Vel Acc Fr Br dt N = (true, L) → N ≤ M →
      PredictStopLocation sqrt Out Cur Vel Acc Fr Br dt M = (true, L)) ∧
    (∀ (N M : Int) (e : LoopExit K), runSimulation sqrt Cur Vel Acc Fr Br dt M = some e →
      e.ReturnValue = true → N < e.Iterations →
      PredictStopLocation sqrt Out Cur Vel Acc Fr Br dt N = (false, Out)) ∧
    PredictStopLocation sqrt Out Cur ⟨500, 0, 0⟩ ZeroVector 2 0 (1 / 60) 1 = (false, Out) := by
  have general : ∀ (Vel Acc : FVector K) (Fr Br dt : K),
      (∀ (Max : Int) (e : LoopExit K), runSimulation sqrt Cur Vel Acc Fr Br dt Max = some e →
        0 ≤ e.Iterations ∧ e.Iterations ≤ max Max 0 ∧
        (e.ReturnValue = true → 1 ≤ e.Iterations)) ∧
      (∀ (N M : Int) (e : LoopExit K), runSimulation sqrt Cur Vel Acc Fr Br dt N = some e →
        e.ReturnValue = true → N ≤ M →
        runSimulation sqrt Cur Vel Acc Fr Br dt M = some e) := by
    intro Vel Acc Fr Br dt
    rcases runSimulation_cases sqrt Cur Vel Acc Fr Br dt with hnone | ⟨zA, zF, zB, v0, hsome⟩
    · constructor
      · intro Max e he; rw [hnone] at he; cases he
      · intro N M e he; rw [hnone] at he; cases he
    · constructor
      · intro Max e he
        rw [hsome] at he
        cases he
        obtain ⟨h1, h2, h3⟩ := simulationLoop_Iterations sqrt Acc (max Fr 0) (max Br 0) dt Max
          zA zF zB _ 0 v0 Cur rfl
        exact ⟨h1, h2, fun hr => by have := h3 hr; omega⟩
      · intro N M e he hr hNM
        rw [hsome] at he
        cases he
        rw [hsome, simulationLoop_budget_mono sqrt Acc (max Fr 0) (max Br 0) dt N M hNM zA zF zB
          _ 0 v0 Cur rfl hr]
  have found : ∀ (Vel Acc : FVector K) (Fr Br dt : K) (N : Int) (L : FVector K),
      PredictStopLocation sqrt Out Cur Vel Acc Fr Br dt N = (true, L) →
      ∃ e, runSimulation sqrt Cur Vel Acc Fr Br dt N = some e ∧ e.ReturnValue = true ∧
        e.LastLocation = L := by
    intro Vel Acc Fr Br dt N L h
    cases hrun : runSimulation sqrt Cur Vel Acc Fr Br dt N with
    | none =>
      rw [PredictStopLocation_of_none sqrt Out Cur Vel Acc Fr Br dt N hrun] at h
      simp at h
    | some e =>
      rw [PredictStopLocation_of_some sqrt Out Cur Vel Acc Fr Br dt N e hrun] at h
      by_cases hr : e.ReturnValue = true
      · rw [if_pos hr] at h
        exact ⟨e, rfl, hr, (Prod.mk.inj h).2⟩
      · rw [if_neg hr] at h
        simp at h
  have late : ∀ (Vel Acc : FVector K) (Fr Br dt : K) (N M : Int) (e : LoopExit K),
      runSimulation sqrt Cur Vel Acc Fr Br dt M = some e →
      e.ReturnValue = true → N < e.Iterations →
      PredictStopLocation sqrt Out Cur Vel Acc Fr Br dt N = (false, Out) := by
    intro Vel Acc Fr Br dt N M e he hr hN
    obtain ⟨hbound, hmono⟩ := general Vel Acc Fr Br dt
    have hM := hbound M e he
    cases hrun : runSimulation sqrt Cur Vel Acc Fr Br dt N with
    | none => exact PredictStopLocation_of_none sqrt Out Cur Vel Acc Fr Br dt N hrun
    | some e2 =>
      rw [PredictStopLocation_of_some sqrt Out Cur Vel Acc Fr Br dt N e2 hrun]
      by_cases hr2 : e2.ReturnValue = true
      · exfalso
        have hN2 := hbound N e2 hrun
        rcases le_total N M with hle | hle
        · have := hmono N M e2 hrun hr2 hle
          rw [he] at this
          cases this
          have h1 := hN2.2.2 hr2
          have h2 := hN2.2.1
          rcases max_cases N 0 with ⟨hm, _⟩ | ⟨hm, _⟩ <;> omega
        · have h1 := hM.2.2 hr
          have h2 := hM.2.1
          rcases max_cases M 0 with ⟨hm, _⟩ | ⟨hm, _⟩ <;> omega
      · rw [if_neg hr2]
  refine ⟨fun Max e he => ?_, fun Max hMax => ?_, fun N M L h hNM => ?_,
    late Vel Acc Fr Br dt, ?_⟩
  · have := (general Vel Acc Fr Br dt).1 Max e he
    exact ⟨this.1, this.2.1⟩
  · cases hrun : runSimulation sqrt Cur Vel Acc Fr Br dt Max with
    | none => exact PredictStopLocation_of_none sqrt Out Cur Vel Acc Fr Br dt Max hrun
    | some e =>
      rw [PredictStopLocation_of_some sqrt Out Cur Vel Acc Fr Br dt Max e hrun]
      have h := (general Vel Acc Fr Br dt).1 Max e hrun
      by_cases hr : e.ReturnValue = true
      · have h1 := h.2.2 hr
        have h2 := h.2.1
        rw [max_eq_right hMax] at h2
        omega
      · rw [if_neg hr]
  · obtain ⟨e, he, hr, hL⟩ := found Vel Acc Fr Br dt N L h
    have hM := (general Vel Acc Fr Br dt).2 N M e he hr hNM
    rw [PredictStopLocation_of_some sqrt Out Cur Vel Acc Fr Br dt M e hM, if_pos hr, hL]
  · obtain ⟨e, he, h1, h2, _⟩ :=
      scenario_loop sqrt 1000 (by norm_num) 183 0 Cur (by norm_num)
    have hstart : (⟨500 * (29 / 30) ^ 0, 0, 0⟩ : FVector K) = ⟨500, 0, 0⟩ := by
      rw [pow_zero, mul_one]
    rw [hstart, Nat.cast_zero] at he
    have hrun : runSimulation sqrt Cur ⟨500, 0, 0⟩ ZeroVector 2 0 (1 / 60) 1000 = some e := by
      rw [scenario_entry, he]
    exact late ⟨500, 0, 0⟩ ZeroVector 2 0 (1 / 60) 1 1000 e hrun h1 (by rw [h2]; norm_num)

/-- C12 (invalid time step): whenever the time step is below `MIN_TICK_TIME`
(1e-6), zero and negative values included, `PredictStopLocation` returns
`false` and leaves `OutStopLocation` untouched, whatever the other inputs. -/
theorem invalid_time_step (sqrt : K → K) (Out Cur Vel Acc : FVector K)
    (Fr Br dt : K) (Max : Int) (h : dt < MIN_TICK_TIME) :
    PredictStopLocation sqrt Out Cur Vel Acc Fr Br dt Max = (false, Out) := by
  apply PredictStopLocation_of_none
  unfold runSimulation
  rw [if_pos h]

/-- Witness of C12: the time step 0 with a braking input that would otherwise
stop (velocity (500,0,0), friction 2). -/
theorem invalid_time_step_witness :
    (0 : ℚ) < MIN_TICK_TIME ∧
      PredictStopLocation (fun q : ℚ => q) ⟨7, 7, 7⟩ ⟨0, 0, 0⟩ ⟨500, 0, 0⟩ ZeroVector 2 0 0
        1000 = (false, ⟨7, 7, 7⟩) :=
  ⟨by unfold MIN_TICK_TIME; norm_num,
    invalid_time_step (fun q : ℚ => q) ⟨7, 7, 7⟩ ⟨0, 0, 0⟩ ⟨500, 0, 0⟩ ZeroVector 2 0 0 1000
      (by unfold MIN_TICK_TIME; norm_num)⟩

/-- C11 (ground-plane model): for every input, non-zero Z components of the
velocity and the acceleration included, and for every budget (hence after
every simulation step, in the braking branch and in the acceleration branch),
the working velocity has a zero Z component and the working location has the
Z of the current location; so whenever `PredictStopLocation` returns `true`
the stop location's Z equals the current location's Z. -/
theorem ground_plane (sqrt : K → K) (Out Cur Vel Acc : FVector K) (Fr Br dt : K)
    (Max : Int) :
    (∀ e : LoopExit K, runSimulation sqrt Cur Vel Acc Fr Br dt Max = some e →
      e.LastVelocity.Z = 0 ∧ e.LastLocation.Z = Cur.Z) ∧
    (∀ (zA zF zB : Bool) (v : FVector K), v.Z = 0 →
      (stepVelocity sqrt Acc Fr Br dt zA zF zB v).Z = 0) ∧
    (∀ L : FVector K, PredictStopLocation sqrt Out Cur Vel Acc Fr Br dt Max = (true, L) →
      L.Z = Cur.Z) := by
  have hloop : ∀ e : LoopExit K, runSimulation sqrt Cur Vel Acc Fr Br dt Max = some e →
      e.LastVelocity.Z = 0 ∧ e.LastLocation.Z = Cur.Z := by
    intro e he
    obtain ⟨_, _, _, hexit⟩ := runSimulation_entered sqrt Cur Vel Acc Fr Br dt Max e he
    rw [hexit]
    exact simulationLoop_Z sqrt Acc (max Fr 0) (max Br 0) dt Max _ _ _ _ 0 _ Cur rfl rfl
  refine ⟨hloop, fun zA zF zB v hv => stepVelocity_Z sqrt Acc Fr Br dt zA zF zB v hv, ?_⟩
  intro L hL
  cases hrun : runSimulation sqrt Cur Vel Acc Fr Br dt Max with
  | none =>
    rw [PredictStopLocation_of_none sqrt Out Cur Vel Acc Fr Br dt Max hrun] at hL
    simp at hL
  | some e =>
    rw [PredictStopLocation_of_some sqrt Out Cur Vel Acc Fr Br dt Max e hrun] at hL
    by_cases hr : e.ReturnValue = true
    · rw [if_pos hr] at hL
      rw [← (Prod.mk.inj hL).2]
      exact (hloop e hrun).2
    · rw [if_neg hr] at hL
      simp at hL

/-- C14, amended (sub-step subdivision, in exact arithmetic): when the code is
run without rounding, whenever the main loop is entered in zero-acceleration
mode, the time step is at least `MIN_TICK_TIME` and the
friction is not zero; the braking loop of an outer iteration, from any
velocity, returns the velocity of its last recorded sub-step; every sub-step
length `dt` is positive and at most 1/33 second; and unless a sub-step ends the
loop on a direction reversal, the sub-step lengths add up exactly to the time
step. -/
theorem sub_step_subdivision (sqrt : K → K) (Cur Vel Acc : FVector K) (Fr Br dt : K)
    (Max : Int) (e : LoopExit K) (hA : IsZero Acc = true)
    (hrun : runSimulation sqrt Cur Vel Acc Fr Br dt Max = some e)
    (RevAccel OldVel v : FVector K) :
    MIN_TICK_TIME ≤ dt ∧ decide (max Fr 0 = 0) = false ∧
    brakingLoop (max Fr 0) (decide (max Fr 0 = 0)) RevAccel OldVel dt v
      = (((brakingLoopTrace (max Fr 0) (decide (max Fr 0 = 0)) RevAccel OldVel dt v).getLast?).map
          SubStep.Velocity).getD v ∧
    (∀ s ∈ brakingLoopTrace (max Fr 0) (decide (max Fr 0 = 0)) RevAccel OldVel dt v,
      0 < s.dt ∧ s.dt ≤ 1 / 33) ∧
    ((∀ s ∈ brakingLoopTrace (max Fr 0) (decide (max Fr 0 = 0)) RevAccel OldVel dt v,
        s.Reversed = false) →
      ((brakingLoopTrace (max Fr 0) (decide (max Fr 0 = 0)) RevAccel OldVel dt v).map
        SubStep.dt).sum = dt) := by
  obtain ⟨hdt, _, hchk, _⟩ := runSimulation_entered sqrt Cur Vel Acc Fr Br dt Max e hrun
  have hF : decide (max Fr 0 = 0) = false := by
    rw [decide_eq_false_iff_not]
    exact fun h => hchk ⟨hA, h⟩
  refine ⟨hdt, hF, brakingLoop_eq_trace _ _ _ _ _ dt v rfl, ?_⟩
  rw [hF]
  obtain ⟨h1, h2⟩ := brakingLoopTrace_steps (max Fr 0) RevAccel OldVel _ dt v rfl
  exact ⟨fun s hs => by simpa [MaxTimeStep] using h1 s hs, h2 (Or.inl hdt)⟩

/-- Witness of C14: zero acceleration, friction 2 and the time step 1/10, which
is longer than 1/33 second, from the velocity (500,0,0). -/
theorem sub_step_subdivision_witness :
    (MIN_TICK_TIME : ℚ) ≤ 1 / 10 ∧
      ∀ s ∈ brakingLoopTrace (max (2 : ℚ) 0) (decide (max (2 : ℚ) 0 = 0)) ZeroVector
          ⟨500, 0, 0⟩ (1 / 10) ⟨500, 0, 0⟩, 0 < s.dt ∧ s.dt ≤ 1 / 33 := by
  have h := sub_step_subdivision (fun q : ℚ => q) ⟨0, 0, 0⟩ ⟨500, 0, 0⟩ ZeroVector 2 0 (1 / 10)
    1000 _ IsZero_ZeroVector
    (runSimulation_of_checks (fun q : ℚ => q) ⟨0, 0, 0⟩ ⟨500, 0, 0⟩ ZeroVector 2 0 (1 / 10) 1000
      (by unfold MIN_TICK_TIME; norm_num) (by rw [dot_ZeroVector_left])
      (by intro hc; have := hc.2; norm_num at this))
    ZeroVector ⟨500, 0, 0⟩ ⟨500, 0, 0⟩
  exact ⟨h.1, h.2.2.2.1⟩

/-- C20, amended (no direction reversal when braking, in exact arithmetic):
when the code is run without rounding, with zero acceleration, for every
budget (hence after every simulation step) the working velocity is a
non-negative multiple of the initial velocity with its Z component zeroed, and
so is the displacement of the working location; one iteration scales any
velocity by a non-negative factor; whenever the function returns `true` the
displacement of the stop location from the current location is a non-negative
multiple of `(Velocity.X, Velocity.Y, 0)`; and with zero velocity the stop
location is the current location. -/
theorem no_reversal (sqrt : K → K) (Out Cur Vel : FVector K) (Fr Br dt : K) (Max : Int) :
    (∀ e : LoopExit K, runSimulation sqrt Cur Vel ZeroVector Fr Br dt Max = some e →
      ∃ a b : K, 0 ≤ a ∧ 0 ≤ b ∧ e.LastVelocity = (⟨Vel.X, Vel.Y, 0⟩ : FVector K) * a ∧
        e.LastLocation = Cur + (⟨Vel.X, Vel.Y, 0⟩ : FVector K) * b) ∧
    (∀ (zF zB : Bool) (v : FVector K), ∃ c : K, 0 ≤ c ∧
      stepVelocity sqrt ZeroVector Fr Br dt true zF zB v = v * c) ∧
    (∀ L : FVector K,
      PredictStopLocation sqrt Out Cur Vel ZeroVector Fr Br dt Max = (true, L) →
      ∃ b : K, 0 ≤ b ∧ L - Cur = (⟨Vel.X, Vel.Y, 0⟩ : FVector K) * b) ∧
    (Vel = ZeroVector → ∀ L : FVector K,
      PredictStopLocation sqrt Out Cur Vel ZeroVector Fr Br dt Max = (true, L) → L = Cur) := by
  have hloop : ∀ e : LoopExit K, runSimulation sqrt Cur Vel ZeroVector Fr Br dt Max = some e →
      ∃ a b : K, 0 ≤ a ∧ 0 ≤ b ∧ e.LastVelocity = (⟨Vel.X, Vel.Y, 0⟩ : FVector K) * a ∧
        e.LastLocation = Cur + (⟨Vel.X, Vel.Y, 0⟩ : FVector K) * b := by
    intro e he
    obtain ⟨hdt, _, _, hexit⟩ := runSimulation_entered sqrt Cur Vel ZeroVector Fr Br dt Max e he
    have hpos : (0 : K) ≤ dt := le_trans (by unfold MIN_TICK_TIME; norm_num) hdt
    simp only [IsZero_ZeroVector, if_true] at hexit
    have hv : ({ Vel with Z := 0 } : FVector K) = (⟨Vel.X, Vel.Y, 0⟩ : FVector K) * (1 : K) := by
      ext <;> simp
    have hl : Cur = Cur + (⟨Vel.X, Vel.Y, 0⟩ : FVector K) * (0 : K) :=
      (add_mul_zero_vec Cur _).symm
    rw [hv] at hexit
    rw [hexit]
    obtain ⟨a, b, ha, hb, h1, h2⟩ := simulationLoop_braking_scale sqrt ZeroVector (max Fr 0)
      (max Br 0) dt Max (decide (max Fr 0 = 0)) (decide (max Br 0 = 0)) ⟨Vel.X, Vel.Y, 0⟩ Cur hpos
      _ 0 1 0 rfl zero_le_one (le_refl _)
    rw [add_mul_zero_vec] at h1 h2
    exact ⟨a, b, ha, hb, h1, h2⟩
  have hfound : ∀ L : FVector K,
      PredictStopLocation sqrt Out Cur Vel ZeroVector Fr Br dt Max = (true, L) →
      ∃ b : K, 0 ≤ b ∧ L = Cur + (⟨Vel.X, Vel.Y, 0⟩ : FVector K) * b := by
    intro L hL
    cases hrun : runSimulation sqrt Cur Vel ZeroVector Fr Br dt Max with
    | none =>
      rw [PredictStopLocation_of_none sqrt Out Cur Vel ZeroVector Fr Br dt Max hrun] at hL
      simp at hL
    | some e =>
      rw [PredictStopLocation_of_some sqrt Out Cur Vel ZeroVector Fr Br dt Max e hrun] at hL
      by_cases hr : e.ReturnValue = true
      · rw [if_pos hr] at hL
        obtain ⟨a, b, _, hb, _, h2⟩ := hloop e hrun
        exact ⟨b, hb, by rw [← (Prod.mk.inj hL).2, h2]⟩
      · rw [if_neg hr] at hL
        simp at hL
  refine ⟨hloop, fun zF zB v => ?_, fun L hL => ?_, fun hVel L hL => ?_⟩
  · obtain ⟨c, hc, h0, _⟩ := brakingStep_scale sqrt Fr Br dt zF zB v
    refine ⟨c, h0, ?_⟩
    unfold stepVelocity
    rw [if_pos rfl, hc]
  · obtain ⟨b, hb, h⟩ := hfound L hL
    refine ⟨b, hb, ?_⟩
    rw [h]
    ext <;> simp
  · obtain ⟨b, _, h⟩ := hfound L hL
    rw [h, hVel]
    ext <;> simp

/-- C19 (convergence with a large enough budget): with a square root that is
never negative (as the real square root), for every input that passes the three
entry checks (time step at least `MIN_TICK_TIME`, acceleration not along the
velocity, and not both zero acceleration and friction at most zero) there is a
budget `N` from which on `PredictStopLocation` returns `true`. -/
theorem convergence (sqrt : K → K) (hsqrt : ∀ x, 0 ≤ sqrt x) (Out Cur Vel Acc : FVector K)
    (Fr Br dt : K) (h1 : MIN_TICK_TIME ≤ dt) (h2 : dot Acc Vel ≤ 0)
    (h3 : ¬ (IsZero Acc = true ∧ Fr ≤ 0)) :
    ∃ N : Int, ∀ Max : Int, N ≤ Max →
      ∃ L : FVector K, PredictStopLocation sqrt Out Cur Vel Acc Fr Br dt Max = (true, L) := by
  have hchk : ¬ (IsZero Acc = true ∧ max Fr 0 = 0) := by
    intro hc
    apply h3
    refine ⟨hc.1, ?_⟩
    have := le_max_left Fr 0
    rw [hc.2] at this
    exact this
  have hpos : (0 : K) < dt := lt_of_lt_of_le (by unfold MIN_TICK_TIME; norm_num) h1
  have hloop : ∃ n : Nat, ∀ Max : Int, (n : Int) + 1 ≤ Max →
      (simulationLoop sqrt Acc (max Fr 0) (max Br 0) dt Max (IsZero Acc)
        (decide (max Fr 0 = 0)) (decide (max Br 0 = 0)) 0
        { (if IsZero Acc = true then Vel else ProjectOnToNormal Vel (GetSafeNormal sqrt Acc))
          with Z := 0 } Cur).ReturnValue = true := by
    by_cases hA : IsZero Acc = true
    · have hF : 0 < max Fr 0 := by
        have : 0 < Fr := by
          by_contra hle
          exact h3 ⟨hA, not_lt.mp hle⟩
        exact lt_of_lt_of_le this (le_max_left _ _)
      obtain ⟨hd, _⟩ := subStepTime_bounds (decide (max Fr 0 = 0)) dt h1
      have hq1 : max 0 (1 - max Fr 0 * subStepTime (decide (max Fr 0 = 0)) dt) < 1 := by
        have := mul_pos hF hd
        exact max_lt zero_lt_one (by linarith)
      have hstep : ∀ v : FVector K,
          SizeSquared (stepVelocity sqrt Acc (max Fr 0) (max Br 0) dt true
            (decide (max Fr 0 = 0)) (decide (max Br 0 = 0)) v)
          ≤ max 0 (1 - max Fr 0 * subStepTime (decide (max Fr 0 = 0)) dt) * SizeSquared v := by
        intro v
        obtain ⟨c', hc, hc0, hcq⟩ := brakingStep_contract sqrt hsqrt (max Fr 0) (max Br 0) dt
          (decide (max Fr 0 = 0)) (decide (max Br 0 = 0)) hF (le_max_right _ _) h1 v
        unfold stepVelocity
        rw [if_pos rfl, hc]
        exact SizeSquared_mul_le v c' _ hc0 hcq (le_of_lt hq1)
      have hn : ∃ n : Nat, SizeSquared ({ Vel with Z := 0 } : FVector K)
          * max 0 (1 - max Fr 0 * subStepTime (decide (max Fr 0 = 0)) dt) ^ n ≤ 1 := by
        rcases le_or_lt (SizeSquared ({ Vel with Z := 0 } : FVector K)) 1 with hs | hs
        · exact ⟨0, by rw [pow_zero, mul_one]; exact hs⟩
        · have hs0 : 0 < SizeSquared ({ Vel with Z := 0 } : FVector K) :=
            lt_trans zero_lt_one hs
          obtain ⟨n, hn⟩ := exists_pow_lt_of_lt_one (one_div_pos.mpr hs0) hq1
          refine ⟨n, le_of_lt ?_⟩
          rw [lt_div_iff₀ hs0] at hn
          linarith
      obtain ⟨n, hn⟩ := hn
      refine ⟨n, fun Max hMax => ?_⟩
      rw [hA]
      simp only [if_true]
      exact simulationLoop_converges_of_contract sqrt Acc (max Fr 0) (max Br 0) dt Max true _ _ _
        (le_max_left _ _) (le_of_lt hq1) hstep n 0 _ Cur (by omega) hn
    · obtain ⟨p, hp, hp0⟩ := initial_projection sqrt Vel Acc
      have hpneg := hp0 h2
      obtain ⟨n, hn⟩ := exists_nat_ge (-p / dt)
      rw [div_le_iff₀ hpos] at hn
      refine ⟨n, fun Max hMax => ?_⟩
      have hAf : IsZero Acc = false := by simpa using hA
      rw [hAf]
      simp only [Bool.false_eq_true, if_false]
      rw [hp]
      exact simulationLoop_converges_accelerating sqrt hsqrt Acc (max Fr 0) (max Br 0) dt Max _ _
        (le_max_right _ _) (le_of_lt hpos) n 0 p Cur (by omega) hpneg hn
  obtain ⟨n, hn⟩ := hloop
  refine ⟨(n : Int) + 1, fun Max hMax => ?_⟩
  have hrun := runSimulation_of_checks sqrt Cur Vel Acc Fr Br dt Max h1 h2 hchk
  rw [PredictStopLocation_of_some sqrt Out Cur Vel Acc Fr Br dt Max _ hrun, if_pos (hn Max hMax)]
  exact ⟨_, rfl⟩

/-- Witness of C19, over the reals with the real square root: velocity
(500,0,0), acceleration (-100,0,0) against it, friction 2, braking deceleration
5 and time step 1/60. -/
theorem convergence_witness :
    ∃ N : Int, ∀ Max : Int, N ≤ Max →
      ∃ L : FVector ℝ, PredictStopLocation Real.sqrt ⟨7, 7, 7⟩ ⟨1, 2, 3⟩ ⟨500, 0, 0⟩
        ⟨-100, 0, 0⟩ 2 5 (1 / 60) Max = (true, L) :=
  convergence Real.sqrt Real.sqrt_nonneg ⟨7, 7, 7⟩ ⟨1, 2, 3⟩ ⟨500, 0, 0⟩ ⟨-100, 0, 0⟩ 2 5
    (1 / 60) (by unfold MIN_TICK_TIME; norm_num) (by simp [dot])
    (by simp [IsZero])

end PredictClaims

/-! ## Single precision: where the exact properties are lost -/

namespace Binary32

open FVector

set_option maxRecDepth 100000 in
/-- C17 as stated fails in single precision.  The curve has the times 0.7f,
1.9f, 2.0f and the values 0, 10, 20 and the target is 10.  The search selects
the pair of samples 0 and 1, `Alpha` is 1, and the interpolation computes
`0.7f + 1 * (1.9f - 0.7f)`, which rounds to the next number above 1.9f (one
step of `2^-23` above it): the result is above the time of the later
sample of the pair. -/
theorem bracketing_any_order_counterexample :
    binarySearch [⟨ofRat 7 10, 0⟩, ⟨ofRat 19 10, ofRat 10 1⟩, ⟨ofRat 2 1, ofRat 20 1⟩]
        (ofRat 10 1) 3 1 1 = some 1 ∧
    GetCurveTime [⟨ofRat 7 10, 0⟩, ⟨ofRat 19 10, ofRat 10 1⟩, ⟨ofRat 2 1, ofRat 20 1⟩]
        (ofRat 10 1) = some (ofRat 19 10 + 2 ^ 126) ∧
    ¬ (ofRat 19 10 + 2 ^ 126 ≤ ofRat 19 10) := by
  decide

set_option maxRecDepth 100000 in
/-- C18 as stated fails in single precision.  On the curve with the times
0.7f, 1.9f, 2.0f and the values 0, 10, 20, both non-decreasing, the target 10
gives the next number above 1.9f, and the next target above 10 (one step of
`2^-20` above it) gives 1.9f: a larger target, a smaller result. -/
theorem monotone_in_target_counterexample :
    ofRat 7 10 ≤ ofRat 19 10 ∧ ofRat 19 10 ≤ ofRat 2 1 ∧
    (0 : Float32) ≤ ofRat 10 1 ∧ ofRat 10 1 ≤ ofRat 20 1 ∧
    ofRat 10 1 ≤ ofRat 10 1 + 2 ^ 129 ∧
    GetCurveTime [⟨ofRat 7 10, 0⟩, ⟨ofRat 19 10, ofRat 10 1⟩, ⟨ofRat 2 1, ofRat 20 1⟩]
        (ofRat 10 1) = some (ofRat 19 10 + 2 ^ 126) ∧
    GetCurveTime [⟨ofRat 7 10, 0⟩, ⟨ofRat 19 10, ofRat 10 1⟩, ⟨ofRat 2 1, ofRat 20 1⟩]
        (ofRat 10 1 + 2 ^ 129) = some (ofRat 19 10) ∧
    ¬ (ofRat 19 10 + 2 ^ 126 ≤ ofRat 19 10) := by
  decide

set_option maxRecDepth 100000 in
/-- C14 as stated fails in single precision.  With friction 2, no braking
deceleration, the velocity (500,0,0) and the time step 1, the braking loop
makes 34 sub-steps and does not end on a direction reversal, yet the lengths of
the sub-steps add up (exactly, as real numbers) to the time step plus `2^-21`:
the remaining time is rounded at every subtraction. -/
theorem sub_step_subdivision_counterexample :
    (brakingLoop (ofRat 2 1) false ZeroVector ⟨ofRat 500 1, 0, 0⟩ 40 (ofRat 1 1)
        ⟨ofRat 500 1, 0, 0⟩).map
      (fun Exit => (Exit.Steps.length, Exit.Reversed, Exit.Steps.sum - ofRat 1 1))
      = some (34, false, 2 ^ 128) := by
  decide

set_option maxRecDepth 1000000 in
/-- C20 as stated fails in single precision.  With friction 2, no braking
deceleration and time step 1/60: from the velocity (10,30,0) the working
velocity after the first simulation step is not a multiple of the initial
velocity (its X times 30 is not its Y times 10, as real numbers); and from the
velocity (3,5,0) and the origin the function returns `true` with a stop
location that is not a multiple of the velocity (its X times 5 is not its Y
times 3).  Each component is rounded on its own. -/
theorem no_reversal_counterexample :
    (runSimulation (fun x => x) (fun x => x) 5 ZeroVector ⟨ofRat 10 1, ofRat 30 1, 0⟩
        ZeroVector (ofRat 2 1) 0 (ofRat 1 60) 1).map (Option.map (fun Exit =>
          (Exit.Iterations, decide (Exit.LastVelocity.X * 30 = Exit.LastVelocity.Y * 10))))
      = some (some (1, false)) ∧
    (PredictStopLocation (fun x => x) (fun x => x) 100 ZeroVector ZeroVector
        ⟨ofRat 3 1, ofRat 5 1, 0⟩ ZeroVector (ofRat 2 1) 0 (ofRat 1 60) 1000).map
          (fun r => (r.1, decide (r.2.X * 5 = r.2.Y * 3)))
      = some (true, false) := by
  decide

end Binary32

end DistanceMatching
